import Mathlib

/-!
Shallow embedding of the cubari-hakken discovery-and-validation engine.

The repository contains two parallel implementations of the engine:
`finder.py` and `cubari_finder.py`.  Both are embedded below, in the
namespaces `Finder` and `CubariFinder` respectively.  JSON payloads are
modelled by the inductive `Json`; Python dictionaries are modelled as
association lists (`List (String × Json)`), with `List.lookup` playing the
role of key lookup.
-/

namespace CubariHakken

/-- JSON values, as produced by `r.json()` in the source.  Numbers are
modelled as integers (no claim depends on float behaviour). -/
inductive Json where
  | null : Json
  | bool (b : Bool) : Json
  | num (n : Int) : Json
  | str (s : String) : Json
  | arr (elems : List Json) : Json
  | obj (fields : List (String × Json)) : Json

/-- Python `isinstance(v, str)`. -/
def Json.isStr : Json → Bool
  | Json.str _ => true
  | _ => false

/-- Python `isinstance(v, dict)`. -/
def Json.isObj : Json → Bool
  | Json.obj _ => true
  | _ => false

/-- Python truthiness (`if not data:`) for JSON values. -/
def Json.truthy : Json → Bool
  | Json.null => false
  | Json.bool b => b
  | Json.num n => n != 0
  | Json.str s => s != ""
  | Json.arr elems => !elems.isEmpty
  | Json.obj fields => !fields.isEmpty

/-- Python `d.get(k, dflt)` on a dictionary. -/
def jget (fields : List (String × Json)) (k : String) (dflt : Json) : Json :=
  (fields.lookup k).getD dflt

/-- Python `s.replace(pat, rep)` on character lists: replaces every
non-overlapping occurrence of `pat`, scanning left to right, without
rescanning the replacement text.  The recursion consumes at least one
input character per step, so it is driven by fuel initialised to the
input length (`listReplace` below); with that much fuel the fuel never
runs out.  (For the empty pattern the source never calls `replace`; the
string is returned unchanged in that case.) -/
def listReplaceF (pat rep : List Char) : Nat → List Char → List Char
  | _, [] => []
  | 0, s => s
  | fuel + 1, c :: rest =>
    if !pat.isEmpty && pat.isPrefixOf (c :: rest) then
      rep ++ listReplaceF pat rep fuel ((c :: rest).drop pat.length)
    else
      c :: listReplaceF pat rep fuel rest

/-- Python `s.replace(pat, rep)` on character lists (see `listReplaceF`). -/
def listReplace (pat rep : List Char) (s : List Char) : List Char :=
  listReplaceF pat rep s.length s

/-- `pat` occurs as a contiguous substring of `s` (Python `pat in s`);
used to state occurrence side conditions on `listReplace`. -/
def hasSub (pat : List Char) : List Char → Bool
  | [] => pat.isEmpty
  | c :: rest => pat.isPrefixOf (c :: rest) || hasSub pat rest

/-- Python `s.replace(pat, rep)` lifted to `String`. -/
def pyReplace (s pat rep : String) : String :=
  String.mk (listReplace pat.data rep.data s.data)

/-- Python `s.split(sep)` for a single-character separator: splits on
every occurrence, keeping empty segments. -/
def pySplit (sep : Char) : List Char → List (List Char)
  | [] => [[]]
  | c :: rest =>
    if c = sep then [] :: pySplit sep rest
    else
      match pySplit sep rest with
      | [] => [[c]]
      | seg :: segs => (c :: seg) :: segs

/-- Python `sep.join(parts)` for a single-character separator. -/
def pyJoin (sep : Char) : List (List Char) → List Char
  | [] => []
  | [seg] => seg
  | seg :: segs => seg ++ sep :: pyJoin sep segs

/-- Python `s.startswith(pre)`. -/
def pyStartsWith (s pre : String) : Bool :=
  pre.data.isPrefixOf s.data

/-- Python `s.endswith(suf)`. -/
def pyEndsWith (s suf : String) : Bool :=
  suf.data.isSuffixOf s.data

/-- `to_raw_url` (identical in `finder.py` and `cubari_finder.py`):
`html_url.replace("github.com", "raw.githubusercontent.com").replace("/blob/", "/")`. -/
def to_raw_url (html_url : String) : String :=
  pyReplace (pyReplace html_url "github.com" "raw.githubusercontent.com") "/blob/" "/"

/-- The dictionary returned by `finder.py` `extract_repo_info`. -/
structure RepoInfo where
  owner : String
  repo : String
  branch : String
  path : String
deriving DecidableEq, Repr

/-- `finder.py` `extract_repo_info`: strips the raw host, splits on `/`,
and requires at least three components; otherwise returns `None`. -/
def extract_repo_info (raw_url : String) : Option RepoInfo :=
  let parts := pySplit '/' (pyReplace raw_url "https://raw.githubusercontent.com/" "").data
  if 3 ≤ parts.length then
    some ⟨String.mk (parts.getD 0 []), String.mk (parts.getD 1 []),
          String.mk (parts.getD 2 []), String.mk (pyJoin '/' (parts.drop 3))⟩
  else
    none

/-- One item of a search-API response: the fields the source consumes. -/
structure Item where
  sha : String
  html_url : String

/-- The bisection midpoint `mid = (min_size + max_size) // 2` used by the
split step of `search_size_range` in both implementations. -/
def splitMid (min_size max_size : Nat) : Nat :=
  (min_size + max_size) / 2

namespace Finder

/-- A row of the `finder_cache` SQLite table.  The table's primary key is
`url`; there is only a non-unique index on `sha`. -/
structure CacheRow where
  url : String
  sha : String
  is_valid : Bool
  source_type : String
  last_checked : Nat
deriving DecidableEq, Repr

/-- `CacheManager.save_result`: `INSERT ... ON CONFLICT(url) DO UPDATE SET
sha, is_valid, last_checked` (note: `source_type` is not updated on
conflict).  `now` stands for `CURRENT_TIMESTAMP`. -/
def save_result (tbl : List CacheRow) (url sha : String) (is_valid : Bool)
    (source_type : String) (now : Nat) : List CacheRow :=
  if tbl.any (fun row => row.url == url) then
    tbl.map (fun row =>
      if row.url == url then
        { row with sha := sha, is_valid := is_valid, last_checked := now }
      else row)
  else
    tbl ++ [⟨url, sha, is_valid, source_type, now⟩]

/-- `CacheManager.is_sha_cached`: `if not sha: return False`, then
`SELECT 1 FROM finder_cache WHERE sha = ?`. -/
def is_sha_cached (tbl : List CacheRow) (sha : String) : Bool :=
  if sha == "" then false else tbl.any (fun row => row.sha == sha)

/-- `finder.py` `validate_root_schema`: only checks that the root is a
dict, that `title` and `chapters` are present, and that `chapters` is a
dict.  (It does not check the other four fields, nor the type of
`title`.) -/
def validate_root_schema (data : Json) : Bool × Option String :=
  match data with
  | Json.obj fields =>
    if (fields.lookup "title").isNone || (fields.lookup "chapters").isNone then
      (false, some "Missing title or chapters")
    else if !(jget fields "chapters" Json.null).isObj then
      (false, some "Chapters is not a dict")
    else (true, none)
  | _ => (false, some "Root is not a dictionary")

/-- The per-group test in `finder.py` `validate_chapters_structure`:
`isinstance(group_value, str) and group_value.strip()` — the stripped
string is truthy exactly when some character is not whitespace. -/
def isNonBlankGroup (v : Json) : Bool :=
  match v with
  | Json.str s => s.data.any (fun c => !c.isWhitespace)
  | _ => false

/-- One chapter entry is counted as valid by `finder.py`
`validate_chapters_structure` when it is a dict containing a `groups`
dict with at least one non-blank string group value. -/
def isValidChapter (chapterData : Json) : Bool :=
  match chapterData with
  | Json.obj cf =>
    match cf.lookup "groups" with
    | some (Json.obj gs) => 0 < gs.countP (fun g => isNonBlankGroup g.2)
    | _ => false
  | _ => false

/-- `finder.py` `validate_chapters_structure`. -/
def validate_chapters_structure (chapters : List (String × Json)) :
    Bool × Option String :=
  if chapters.isEmpty then (false, some "Chapters empty")
  else if chapters.countP (fun ch => isValidChapter ch.2) = 0 then
    (false, some "No valid chapters found")
  else (true, none)

/-- `finder.py` `strict_validate_cubari`. -/
def strict_validate_cubari (data : Json) : Bool × Option String :=
  match validate_root_schema data with
  | (false, rootError) => (false, rootError)
  | (true, _) =>
    match data with
    | Json.obj fields =>
      match jget fields "chapters" Json.null with
      | Json.obj chapters => validate_chapters_structure chapters
      | _ => (false, some "Chapters is not a dict")
    | _ => (false, some "Root is not a dictionary")

/-- The result dictionary built by `finder.py` `validate_candidate`.
`timestamp` stands for `datetime.now(UTC)`. -/
structure Record where
  title : Json
  description : Json
  artist : Json
  author : Json
  cover : Json
  url : String
  repo : String
  found_via : String
  timestamp : Nat
  chapters_count : Nat
  chapters : Json
  score : Nat

/-- The `if sha is not None: cache_manager.save_result(...)` guard of
`finder.py` `validate_candidate`. -/
def save_if_sha (tbl : List CacheRow) (now : Nat)
    (raw_url source_type : String) (sha : Option String) (valid : Bool) :
    List CacheRow :=
  match sha with
  | some s => save_result tbl raw_url s valid source_type now
  | none => tbl

/-- The result dictionary literal returned by `finder.py`
`validate_candidate` after a successful validation, for a payload with
field list `fields` and string cover `cover`. -/
def mk_record (raw_url source_type : String) (now : Nat)
    (fields : List (String × Json)) (cover : String) : Record :=
  { title := jget fields "title" (Json.str "")
    description := jget fields "description" (Json.str "")
    artist := jget fields "artist" (Json.str "")
    author := jget fields "author" (Json.str "")
    cover := Json.str cover
    url := raw_url
    repo := (extract_repo_info raw_url).elim "unknown" RepoInfo.repo
    found_via := source_type
    timestamp := now
    chapters_count :=
      match jget fields "chapters" (Json.obj []) with
      | Json.obj chapters => chapters.length
      | _ => 0
    chapters := jget fields "chapters" (Json.obj [])
    score := if pyStartsWith cover "http" then 1 else 0 }

/-- The record construction step of `finder.py` `validate_candidate` (the
code after a successful `strict_validate_cubari`).  The
`data.get("cover", "").startswith("http")` line raises `AttributeError`
on a non-string cover; that path produces no record and is modelled by
`none`. -/
def build_record (raw_url source_type : String) (now : Nat) (data : Json) :
    Option Record :=
  match data with
  | Json.obj fields =>
    match jget fields "cover" (Json.str "") with
    | Json.str cover => some (mk_record raw_url source_type now fields cover)
    | _ => none
  | _ => none

/-- `finder.py` `validate_candidate`, with the network abstracted away:
`fetched` is the result of `fetch_json(raw_url)` (`none` for a fetch
failure; the `if not data:` truthiness test also rejects a falsy payload).
Returns the produced record (if any) and the updated cache table. -/
def validate_candidate (tbl : List CacheRow) (now : Nat)
    (raw_url source_type : String) (sha : Option String)
    (fetched : Option Json) : Option Record × List CacheRow :=
  match fetched with
  | none => (none, save_if_sha tbl now raw_url source_type sha false)
  | some data =>
    if !data.truthy then (none, save_if_sha tbl now raw_url source_type sha false)
    else
      let v := strict_validate_cubari data
      let tbl' := save_if_sha tbl now raw_url source_type sha v.1
      if !v.1 then (none, tbl')
      else (build_record raw_url source_type now data, tbl')

/-- One entry of a git tree response, as consumed by `deep_scan_repo`.
`sha` is `item.get("sha")` (may be absent). -/
structure TreeItem where
  path : String
  type : String
  sha : Option String

/-- `finder.py` `deep_scan_repo`, with the tree response abstracted as
`tree` and the cache query `cache_manager.is_sha_cached` as `cached`.
Emits `(raw_url, "deep_scan", sha)` for every `.json` blob whose sha is
truthy and not cached. -/
def deep_scan_repo (cached : String → Bool) (owner repo : String)
    (tree : List TreeItem) : List (String × String × String) :=
  tree.foldl (fun found item =>
    if pyEndsWith item.path ".json" && item.type == "blob" then
      match item.sha with
      | some sha =>
        if sha != "" && !cached sha then
          found ++ [("https://raw.githubusercontent.com/" ++ owner ++ "/" ++
                     repo ++ "/HEAD/" ++ item.path, "deep_scan", sha)]
        else found
      | none => found
    else found) []

/-- `finder.py` `search_size_range`.  The search API is abstracted as a
deterministic oracle `matches`, giving the full match list of an interval:
the response to the single issued query has `total_count = (matches low
high).length` and `items` = the first 100 matches (`per_page=100`, no
`page` parameter, so only page 1 is ever fetched).  The cache query is
abstracted as `cached`.  `collected` is threaded to model list mutation. -/
def search_size_range_rec (cached : String → Bool)
    (apiMatches : Nat → Nat → List Item) :
    Nat → Nat → Nat → List (String × String × String) →
    List (String × String × String)
  | 0, _, _, collected => collected
  | fuel + 1, min_size, max_size, collected =>
    let L := apiMatches min_size max_size
    let total := L.length
    if total = 0 then collected
    else if total ≤ 1000 then
      (L.take 100).foldl (fun acc item =>
        if cached item.sha then acc
        else acc ++ [(to_raw_url item.html_url, "search_shard", item.sha)]) collected
    else
      let mid := splitMid min_size max_size
      if mid = min_size then collected
      else
        search_size_range_rec cached apiMatches fuel (mid + 1) max_size
          (search_size_range_rec cached apiMatches fuel min_size mid collected)

/-- `finder.py` `search_size_range` is not well-founded as written: for an
inverted interval (`max_size < min_size`, unreachable from `run`, which
starts at `[100, 500000]` and bisects) the Python recursion can fail to
terminate, so the model carries fuel.  `max_size - min_size + 1` fuel is
enough for every interval with `min_size ≤ max_size`, because each
recursive call strictly shrinks the width. -/
def search_size_range (cached : String → Bool)
    (apiMatches : Nat → Nat → List Item) (min_size max_size : Nat)
    (collected : List (String × String × String)) :
    List (String × String × String) :=
  search_size_range_rec cached apiMatches (max_size - min_size + 1)
    min_size max_size collected

/-- An HTTP response as consumed by `github_api_get`. -/
structure HttpResp where
  status : Nat
  payload : Json

/-- `finder.py` `github_api_get`: on 403/429 it calls
`token_manager.report_rate_limit()` (round-robin rotation; a 60 s sleep
only when the pool has exactly one token — there is no reset-timestamp
handling) and retries exactly once; a non-200 retry yields `None`.
`numTokens` is `len(token_manager.tokens)`; `r1`/`r2` are the responses
to the first and (if issued) second request.  Returns the result, the
number of requests issued, and the list of sleep durations performed. -/
def github_api_get (numTokens : Nat) (r1 r2 : HttpResp) :
    Option Json × Nat × List Nat :=
  if r1.status = 200 then (some r1.payload, 1, [])
  else if r1.status = 403 ∨ r1.status = 429 then
    let sleeps := if numTokens = 1 then [60] else []
    if r2.status = 200 then (some r2.payload, 2, sleeps)
    else (none, 2, sleeps)
  else (none, 1, [])

end Finder

namespace CubariFinder

/-- `cubari_finder.py` `REQUIRED_ROOT_FIELDS`: field name paired with its
`isinstance` check, in dict insertion order. -/
def REQUIRED_ROOT_FIELDS : List (String × (Json → Bool)) :=
  [("title", Json.isStr), ("description", Json.isStr), ("artist", Json.isStr),
   ("author", Json.isStr), ("cover", Json.isStr), ("chapters", Json.isObj)]

/-- The `for field, field_type in REQUIRED_ROOT_FIELDS.items()` loop of
`cubari_finder.py` `validate_root_schema`. -/
def checkRequired : List (String × (Json → Bool)) → List (String × Json) →
    Bool × Option String
  | [], _ => (true, none)
  | (f, fieldType) :: rest, fields =>
    match fields.lookup f with
    | none => (false, some ("Missing required field: " ++ f))
    | some v =>
      if fieldType v then checkRequired rest fields
      else (false, some ("Invalid type for field: " ++ f))

/-- `cubari_finder.py` `validate_root_schema`: all six required fields
must be present and correctly typed. -/
def validate_root_schema (data : Json) : Bool × Option String :=
  match data with
  | Json.obj fields => checkRequired REQUIRED_ROOT_FIELDS fields
  | _ => (false, some "Root is not a dictionary")

/-- A search-API response as consumed by `github_search`: the HTTP status,
the `X-RateLimit-Remaining` and `X-RateLimit-Reset` headers (absent when
the server does not send them), and the JSON body. -/
structure SearchResp where
  status : Nat
  remaining : Option String
  reset : Option Nat
  payload : Json

/-- `cubari_finder.py` `github_search`, the `while True:` retry loop.
`resp k` is the response to the `k`-th request issued for this call and
`clock k` is `int(time.time())` observed while handling it.  A 200
returns the body; a 403 sleeps — `max(reset - now, 5)` seconds when
`remaining == "0"` and a reset header is present, 60 seconds otherwise —
and loops; any other status returns `{}`.  The loop has no bound in the
source, so the model carries fuel: `none` in the first component means
the fuel ran out with the loop still running.  Also returns the number of
requests issued and the sleep durations performed. -/
def github_search (resp : Nat → SearchResp) (clock : Nat → Nat) :
    Nat → Nat → List Nat → Option Json × Nat × List Nat
  | 0, attempt, sleeps => (none, attempt, sleeps.reverse)
  | fuel + 1, attempt, sleeps =>
    let r := resp attempt
    if r.status = 200 then (some r.payload, attempt + 1, sleeps.reverse)
    else if r.status = 403 then
      if r.remaining == some "0" && r.reset.isSome then
        github_search resp clock fuel (attempt + 1)
          (max (r.reset.getD 0 - clock attempt) 5 :: sleeps)
      else
        github_search resp clock fuel (attempt + 1) (60 :: sleeps)
    else (some (Json.obj []), attempt + 1, sleeps.reverse)

/-- The deterministic stub search API of `cubari_finder.py`
`search_size_range`: with `L` the full match list of the queried
interval, the response to `github_search(query, page)` has
`total_count = L.length` and `items` equal to this slice (100 per page). -/
def pageItems (L : List Item) (page : Nat) : List Item :=
  (L.drop ((page - 1) * 100)).take 100

/-- The `for item in items:` body shared by the safe and dense branches of
`cubari_finder.py` `search_size_range`: skip shas already in `seen_shas`,
otherwise add the sha and append `(to_raw_url(item["html_url"]),
source_type)` to `collected`.  The state is `(seen_shas, collected)`;
the Python set is modelled as the list of its insertions. -/
def addItems (source_type : String)
    (st : List String × List (String × String)) (items : List Item) :
    List String × List (String × String) :=
  items.foldl (fun st item =>
    if st.1.contains item.sha then st
    else (item.sha :: st.1, st.2 ++ [(to_raw_url item.html_url, source_type)])) st

/-- The safe-branch paging loop of `cubari_finder.py` `search_size_range`
(`total <= 1000`): starting from `page`, fetch a page, stop on an empty
page, process the items, stop when the page was short (`< 100`) or when
the incremented page counter exceeds 10. -/
def safePages (L : List Item) (source_type : String) (page : Nat)
    (st : List String × List (String × String)) :
    List String × List (String × String) :=
  let items := pageItems L page
  if items.isEmpty then st
  else
    let st' := addItems source_type st items
    if items.length < 100 then st'
    else if 10 < page + 1 then st'
    else safePages L source_type (page + 1) st'
termination_by 11 - page
decreasing_by
  omega

/-- The dense-leaf paging loop of `cubari_finder.py` `search_size_range`
(`total > 1000` and `max_size - min_size <= 1`): `while page <= 10:`
fetch, stop on an empty page, process, advance. -/
def densePages (L : List Item) (source_type : String) (page : Nat)
    (st : List String × List (String × String)) :
    List String × List (String × String) :=
  if 10 < page then st
  else
    let items := pageItems L page
    if items.isEmpty then st
    else densePages L source_type (page + 1) (addItems source_type st items)
termination_by 11 - page
decreasing_by
  omega

/-- `cubari_finder.py` `search_size_range`.  The search API is abstracted
as the deterministic oracle `apiMatches` giving the full match list of an
interval (see `pageItems`); the `(seen_shas, collected)` state is threaded
to model mutation of the shared set and list. -/
def search_size_range (apiMatches : Nat → Nat → List Item)
    (min_size max_size : Nat) (st : List String × List (String × String)) :
    List String × List (String × String) :=
  let L := apiMatches min_size max_size
  let total := L.length
  if total = 0 then st
  else if total ≤ 1000 then safePages L "adaptive_size_shard" 1 st
  else if max_size - min_size ≤ 1 then densePages L "dense_leaf" 1 st
  else
    let mid := splitMid min_size max_size
    search_size_range apiMatches (mid + 1) max_size
      (search_size_range apiMatches min_size mid st)
termination_by max_size - min_size
decreasing_by
  all_goals simp only [splitMid]; omega

/-- The call-tree depth of `cubari_finder.py` `search_size_range` for a
given assignment `count` of total counts to intervals: 0 for the three
non-recursive outcomes (empty, safe, dense leaf), and one more than the
deeper of the two bisection branches otherwise.  (`finder.py` splits on
the equivalent guard `mid == min_size` whenever `min_size ≤ max_size`.) -/
def partitionDepth (count : Nat → Nat → Nat) (min_size max_size : Nat) : Nat :=
  let total := count min_size max_size
  if total = 0 then 0
  else if total ≤ 1000 then 0
  else if max_size - min_size ≤ 1 then 0
  else
    let mid := splitMid min_size max_size
    1 + max (partitionDepth count min_size mid)
            (partitionDepth count (mid + 1) max_size)
termination_by max_size - min_size
decreasing_by
  all_goals simp only [splitMid]; omega

end CubariFinder

/-- A deterministic stub search API whose every interval has 101 matching
items with distinct shas (the sha of item `i` is `i` repetitions of
`'a'`). -/
def stubApi101 : Nat → Nat → List Item :=
  fun _ _ => (List.range 101).map
    (fun i => ⟨String.mk (List.replicate i 'a'), "u"⟩)

/-- A deterministic stub search API whose every interval has 1001 matching
items with distinct shas. -/
def stubApi1001 : Nat → Nat → List Item :=
  fun _ _ => (List.range 1001).map
    (fun i => ⟨String.mk (List.replicate i 'a'), "u"⟩)

/-!
## Theorems
-/

/-- C8: for every interval `[low, high]` with `high - low ≥ 2` that the
partitioner splits, the two sibling sub-intervals `[low, mid]` and
`[mid + 1, high]` with `mid = ⌊(low + high) / 2⌋` are disjoint integer
ranges and their union equals the parent interval `[low, high]`. -/
theorem c8_split_disjoint_union (low high : Nat) (h : low + 2 ≤ high) :
    Disjoint (Finset.Icc low (splitMid low high))
      (Finset.Icc (splitMid low high + 1) high) ∧
    Finset.Icc low (splitMid low high) ∪ Finset.Icc (splitMid low high + 1) high
      = Finset.Icc low high := by
  constructor
  · rw [Finset.disjoint_left]
    intro a ha hb
    simp only [Finset.mem_Icc] at ha hb
    omega
  · ext a
    simp only [Finset.mem_union, Finset.mem_Icc, splitMid]
    omega

/-- Witness for `c8_split_disjoint_union` at `low = 0`, `high = 10`. -/
theorem c8_split_disjoint_union_witness :
    Disjoint (Finset.Icc 0 (splitMid 0 10)) (Finset.Icc (splitMid 0 10 + 1) 10) ∧
    Finset.Icc 0 (splitMid 0 10) ∪ Finset.Icc (splitMid 0 10 + 1) 10
      = Finset.Icc 0 10 :=
  c8_split_disjoint_union 0 10 (by decide)

/-- C7 fails as stated: the `finder_cache` table is keyed by `url`, not by
digest.  Saving digest `"D"` under url `"u1"` with verdict `true` and then
again under url `"u2"` with verdict `false` creates a second row for `"D"`
and leaves the first row's verdict at `true`, instead of updating the
stored verdict in place without a duplicate row. -/
theorem c7_counterexample :
    Finder.save_result (Finder.save_result [] "u1" "D" true "s" 0)
        "u2" "D" false "s" 1
      = [⟨"u1", "D", true, "s", 0⟩, ⟨"u2", "D", false, "s", 1⟩] ∧
    ((Finder.save_result (Finder.save_result [] "u1" "D" true "s" 0)
        "u2" "D" false "s" 1).countP (fun row => row.sha == "D")) = 2 := by
  constructor <;> rfl

/-- `save_result` leaves the url column unchanged in the update case and
appends the new url in the insert case. -/
theorem save_result_url_map (tbl : List Finder.CacheRow) (u D s : String)
    (v : Bool) (t : Nat) :
    (Finder.save_result tbl u D v s t).map Finder.CacheRow.url
      = if tbl.any (fun row => row.url == u) then tbl.map Finder.CacheRow.url
        else tbl.map Finder.CacheRow.url ++ [u] := by
  unfold Finder.save_result
  split
  · simp only [List.map_map]
    apply List.map_congr_left
    intro row _
    by_cases hrow : row.url = u <;> simp [hrow]
  · simp

/-- After `save_result tbl u ...` the table has a row with url `u`. -/
theorem save_result_mem_url (tbl : List Finder.CacheRow) (u D s : String)
    (v : Bool) (t : Nat) :
    u ∈ (Finder.save_result tbl u D v s t).map Finder.CacheRow.url := by
  rw [save_result_url_map]
  split
  · next hany =>
    rcases List.any_eq_true.mp hany with ⟨row, hmem, hbeq⟩
    replace hbeq := beq_iff_eq.mp hbeq
    exact hbeq ▸ List.mem_map_of_mem Finder.CacheRow.url hmem
  · exact List.mem_append_right _ (List.mem_singleton_self u)

/-- `save_result` preserves uniqueness of the url column. -/
theorem save_result_url_nodup (tbl : List Finder.CacheRow) (u D s : String)
    (v : Bool) (t : Nat)
    (hnd : (tbl.map Finder.CacheRow.url).Nodup) :
    ((Finder.save_result tbl u D v s t).map Finder.CacheRow.url).Nodup := by
  rw [save_result_url_map]
  split
  · exact hnd
  · next hany =>
    rw [List.nodup_append]
    refine ⟨hnd, List.nodup_singleton u, ?_⟩
    intro x hx hx1
    rw [List.mem_singleton] at hx1
    rw [hx1] at hx
    rcases List.mem_map.mp hx with ⟨row, hmem, hurl⟩
    exact hany (List.any_eq_true.mpr ⟨row, hmem, beq_iff_eq.mpr hurl⟩)

/-- In a table with unique urls, if some row matches a url then the filter
by that url returns exactly that one row. -/
theorem filter_url_singleton (tbl : List Finder.CacheRow) (u : String)
    (hnd : (tbl.map Finder.CacheRow.url).Nodup)
    (hany : tbl.any (fun row => row.url == u) = true) :
    ∃ r0, tbl.filter (fun row => row.url == u) = [r0] ∧ r0.url = u := by
  induction tbl with
  | nil => simp at hany
  | cons row rest ih =>
    simp only [List.map_cons, List.nodup_cons] at hnd
    by_cases hrow : row.url = u
    · refine ⟨row, ?_, hrow⟩
      have hnil : rest.filter (fun row => row.url == u) = [] := by
        apply List.filter_eq_nil_iff.mpr
        intro r hr hbeq
        replace hbeq := beq_iff_eq.mp hbeq
        exact hnd.1 (by rw [hrow, ← hbeq]; exact List.mem_map_of_mem _ hr)
      simp [List.filter_cons, hrow, hnil]
    · have hrest : (rest.any fun row => row.url == u) = true := by
        rcases List.any_eq_true.mp hany with ⟨r, hr, hbeq⟩
        rcases List.mem_cons.mp hr with h1 | h1
        · exact absurd (by rw [h1] at hbeq; exact beq_iff_eq.mp hbeq) hrow
        · exact List.any_eq_true.mpr ⟨r, h1, hbeq⟩
      rcases ih hnd.2 hrest with ⟨r0, hfil, hr0⟩
      exact ⟨r0, by simp [List.filter_cons, hrow, hfil], hr0⟩

/-- Filtering commutes with mapping a function that does not change the
predicate's verdict. -/
theorem filter_map_of_pred_comm {α : Type} (p : α → Bool) (f : α → α)
    (hpf : ∀ a, p (f a) = p a) (l : List α) :
    (l.map f).filter p = (l.filter p).map f := by
  induction l with
  | nil => rfl
  | cons a rest ih =>
    simp only [List.map_cons, List.filter_cons, hpf a]
    by_cases ha : p a = true
    · simp [ha, ih]
    · simp [ha, ih]

/-- In a table with unique urls, after `save_result tbl u D v s t` the
single row with url `u` carries sha `D` and verdict `v`. -/
theorem save_result_filter_url (tbl : List Finder.CacheRow) (u D s : String)
    (v : Bool) (t : Nat)
    (hnd : (tbl.map Finder.CacheRow.url).Nodup) :
    ((Finder.save_result tbl u D v s t).filter
        (fun row => row.url == u)).map (fun row => (row.sha, row.is_valid))
      = [(D, v)] := by
  unfold Finder.save_result
  split
  · next hany =>
    rcases filter_url_singleton tbl u hnd hany with ⟨r0, hfil, hurl⟩
    rw [filter_map_of_pred_comm (fun row => row.url == u)
          (fun row => if row.url == u then
            { row with sha := D, is_valid := v, last_checked := t }
          else row)
          (by intro a; by_cases ha : a.url = u <;> simp [ha]) tbl, hfil]
    simp [hurl]
  · next hany =>
    have hfil : tbl.filter (fun row => row.url == u) = [] := by
      apply List.filter_eq_nil_iff.mpr
      intro r hr hbeq
      exact hany (List.any_eq_true.mpr ⟨r, hr, hbeq⟩)
    rw [List.filter_append, hfil]
    simp

/-- C7, amended: the dedup cache is keyed by url.  In a table with unique
urls, after `save_result(url=u, sha=D, valid=v)` the digest `D ≠ ""` is
reported cached; saving again under the same url `u` with verdict `v2`
updates the stored verdict in place — urls stay unique, the row count is
unchanged, and the single row for `u` now carries `(D, v2)`.  (Saving the
same digest under a different url creates a second row for `D`, as the
counterexample shows.) -/
theorem c7_cache_keyed_by_url (tbl : List Finder.CacheRow) (u D s s2 : String)
    (v v2 : Bool) (t1 t2 : Nat) (hD : D ≠ "")
    (hnd : (tbl.map Finder.CacheRow.url).Nodup) :
    Finder.is_sha_cached (Finder.save_result tbl u D v s t1) D = true ∧
    ((Finder.save_result (Finder.save_result tbl u D v s t1) u D v2 s2 t2).map
        Finder.CacheRow.url).Nodup ∧
    (Finder.save_result (Finder.save_result tbl u D v s t1) u D v2 s2 t2).length
      = (Finder.save_result tbl u D v s t1).length ∧
    ((Finder.save_result (Finder.save_result tbl u D v s t1) u D v2 s2 t2).filter
        (fun row => row.url == u)).map (fun row => (row.sha, row.is_valid))
      = [(D, v2)] := by
  have hnd1 := save_result_url_nodup tbl u D s v t1 hnd
  have hflt := save_result_filter_url tbl u D s v t1 hnd
  have hany1 : ((Finder.save_result tbl u D v s t1).any
      (fun row => row.url == u)) = true := by
    rcases List.mem_map.mp (save_result_mem_url tbl u D s v t1) with ⟨row, hmem, hurl⟩
    exact List.any_eq_true.mpr ⟨row, hmem, beq_iff_eq.mpr hurl⟩
  refine ⟨?_, save_result_url_nodup _ u D s2 v2 t2 hnd1, ?_,
    save_result_filter_url _ u D s2 v2 t2 hnd1⟩
  · cases hl : (Finder.save_result tbl u D v s t1).filter
        (fun row => row.url == u) with
    | nil => rw [hl] at hflt; simp at hflt
    | cons r rest =>
      rw [hl] at hflt
      simp only [List.map_cons, List.cons.injEq, Prod.mk.injEq] at hflt
      have hr : r ∈ Finder.save_result tbl u D v s t1 :=
        List.mem_of_mem_filter (hl ▸ List.mem_cons_self r rest)
      have hDne : (D == "") = false := by simp [hD]
      simp only [Finder.is_sha_cached, hDne, Bool.false_eq_true, if_neg]
      exact List.any_eq_true.mpr ⟨r, hr, beq_iff_eq.mpr hflt.1.1⟩
  · generalize hT : Finder.save_result tbl u D v s t1 = tbl1 at hany1 ⊢
    unfold Finder.save_result
    rw [if_pos hany1, List.length_map]

/-- Witness for `c7_cache_keyed_by_url` on the empty table. -/
theorem c7_cache_keyed_by_url_witness :
    Finder.is_sha_cached (Finder.save_result [] "u" "D" true "s" 0) "D" = true ∧
    ((Finder.save_result (Finder.save_result [] "u" "D" true "s" 0)
        "u" "D" false "s" 1).map Finder.CacheRow.url).Nodup ∧
    (Finder.save_result (Finder.save_result [] "u" "D" true "s" 0)
        "u" "D" false "s" 1).length
      = (Finder.save_result [] "u" "D" true "s" 0).length ∧
    ((Finder.save_result (Finder.save_result [] "u" "D" true "s" 0)
        "u" "D" false "s" 1).filter
        (fun row => row.url == "u")).map (fun row => (row.sha, row.is_valid))
      = [("D", false)] :=
  c7_cache_keyed_by_url [] "u" "D" "s" "s" true false 0 1 (by decide) (by simp)

/-- C5 fails as stated: `finder.py`'s `validate_root_schema` accepts a
payload that is missing `description`, `artist`, `author` and `cover` and
whose `title` is a number, and `strict_validate_cubari` accepts such a
payload outright when its chapters pass — no failure, no named reason. -/
theorem c5_counterexample :
    Finder.validate_root_schema
        (Json.obj [("title", Json.num 3), ("chapters", Json.obj [])])
      = (true, none) ∧
    Finder.strict_validate_cubari
        (Json.obj [("title", Json.num 3),
          ("chapters", Json.obj [("1", Json.obj
            [("groups", Json.obj [("g", Json.str "http://x")])])])])
      = (true, none) := by
  constructor <;> rfl

/-- The `for field, field_type in REQUIRED_ROOT_FIELDS.items()` loop
accepts exactly when every listed field is present with the required type,
and on failure reports a named reason. -/
theorem checkRequired_spec (reqs : List (String × (Json → Bool)))
    (fields : List (String × Json)) :
    ((CubariFinder.checkRequired reqs fields).1 = true ↔
      ∀ fp ∈ reqs, ∃ v, fields.lookup fp.1 = some v ∧ fp.2 v = true) ∧
    ((CubariFinder.checkRequired reqs fields).1 = false →
      (CubariFinder.checkRequired reqs fields).2.isSome = true) := by
  induction reqs with
  | nil => simp [CubariFinder.checkRequired]
  | cons fp rest ih =>
    obtain ⟨f, ty⟩ := fp
    simp only [CubariFinder.checkRequired]
    cases hl : fields.lookup f with
    | none => simp [hl]
    | some v =>
      by_cases hty : ty v = true
      · simpa [hl, hty] using ih
      · simp [hl, hty]

/-- C5, amended: `cubari_finder.py`'s `validate_root_schema` accepts a
payload exactly when its root is an object containing all six fields
`title`, `description`, `artist`, `author`, `cover` (strings) and
`chapters` (object), each present and correctly typed, and any failure
reports a named reason.  (`finder.py`'s root validator only requires
`title` and `chapters` to be present and `chapters` to be a dict — see
the counterexample.) -/
theorem c5_root_schema_all_six (d : Json) :
    ((CubariFinder.validate_root_schema d).1 = true ↔
      ∃ fields, d = Json.obj fields ∧
        ∀ fp ∈ CubariFinder.REQUIRED_ROOT_FIELDS, ∃ v,
          fields.lookup fp.1 = some v ∧ fp.2 v = true) ∧
    ((CubariFinder.validate_root_schema d).1 = false →
      (CubariFinder.validate_root_schema d).2.isSome = true) := by
  cases d with
  | obj fields =>
    constructor
    · simp only [CubariFinder.validate_root_schema]
      rw [(checkRequired_spec CubariFinder.REQUIRED_ROOT_FIELDS fields).1]
      constructor
      · intro h
        exact ⟨fields, rfl, h⟩
      · rintro ⟨fields2, heq, h⟩
        cases heq
        exact h
    · exact (checkRequired_spec CubariFinder.REQUIRED_ROOT_FIELDS fields).2
  | null => simp [CubariFinder.validate_root_schema]
  | bool b => simp [CubariFinder.validate_root_schema]
  | num n => simp [CubariFinder.validate_root_schema]
  | str sv => simp [CubariFinder.validate_root_schema]
  | arr elems => simp [CubariFinder.validate_root_schema]

/-- Witness for `c5_root_schema_all_six`: a payload with only `title`
fails with a named reason. -/
theorem c5_root_schema_all_six_witness :
    ((CubariFinder.validate_root_schema
        (Json.obj [("title", Json.str "t")])).2).isSome = true :=
  (c5_root_schema_all_six (Json.obj [("title", Json.str "t")])).2 (by rfl)

/-- C6 fails as stated: a payload whose chapters map contains one valid
chapter and one malformed entry (`"2": 0`) passes validation, and the
produced record keeps the full raw chapters map — so not every entry of a
ValidatedRecord's chapters has a non-blank group. -/
theorem c6_counterexample :
    ((Finder.validate_candidate [] 0 "u" "deep_scan" (some "s1")
        (some (Json.obj [("title", Json.str "t"),
          ("chapters", Json.obj
            [("1", Json.obj [("groups", Json.obj [("g", Json.str "http://x")])]),
             ("2", Json.num 0)])]))).1.map (fun r =>
      match r.chapters with
      | Json.obj chapters => chapters.all (fun ch => Finder.isValidChapter ch.2)
      | _ => true)) = some false := by
  rfl

/-- Unfolding equation of `validate_candidate` on a fetched payload. -/
theorem validate_candidate_some_eq (tbl : List Finder.CacheRow) (now : Nat)
    (raw_url source_type : String) (sha : Option String) (data : Json) :
    Finder.validate_candidate tbl now raw_url source_type sha (some data)
      = if !data.truthy then
          (none, Finder.save_if_sha tbl now raw_url source_type sha false)
        else if !(Finder.strict_validate_cubari data).1 then
          (none, Finder.save_if_sha tbl now raw_url source_type sha
            (Finder.strict_validate_cubari data).1)
        else (Finder.build_record raw_url source_type now data,
          Finder.save_if_sha tbl now raw_url source_type sha
            (Finder.strict_validate_cubari data).1) := rfl

/-- Unfolding equation of `build_record` on an object payload. -/
theorem build_record_obj_eq (raw_url source_type : String) (now : Nat)
    (fields : List (String × Json)) :
    Finder.build_record raw_url source_type now (Json.obj fields)
      = match jget fields "cover" (Json.str "") with
        | Json.str cover =>
          some (Finder.mk_record raw_url source_type now fields cover)
        | _ => none := rfl

/-- If `validate_chapters_structure` succeeds, the chapters map is
non-empty and some entry is a valid chapter. -/
theorem validate_chapters_true (chapters : List (String × Json))
    (hb : (Finder.validate_chapters_structure chapters).1 = true) :
    chapters ≠ [] ∧ chapters.any (fun ch => Finder.isValidChapter ch.2) = true := by
  unfold Finder.validate_chapters_structure at hb
  split at hb
  · simp at hb
  · split at hb
    · simp at hb
    · next h1 h2 =>
      constructor
      · intro hnil
        rw [hnil] at h1
        simp at h1
      · have hpos : 0 < chapters.countP (fun ch => Finder.isValidChapter ch.2) :=
          Nat.pos_of_ne_zero h2
        rcases List.countP_pos.mp hpos with ⟨a, ha, hpa⟩
        exact List.any_eq_true.mpr ⟨a, ha, hpa⟩

/-- If `strict_validate_cubari` succeeds, the payload is an object whose
`chapters` field is a non-empty object with at least one valid chapter. -/
theorem strict_validate_chapters (data : Json)
    (hb : (Finder.strict_validate_cubari data).1 = true) :
    ∃ fields chapters, data = Json.obj fields ∧
      fields.lookup "chapters" = some (Json.obj chapters) ∧
      chapters ≠ [] ∧ chapters.any (fun ch => Finder.isValidChapter ch.2) = true := by
  unfold Finder.strict_validate_cubari at hb
  split at hb
  · simp at hb
  · next x heq =>
    split at hb
    · next fields =>
      split at hb
      · next chapters hchap =>
        refine ⟨fields, chapters, rfl, ?_, validate_chapters_true chapters hb⟩
        cases hcl : fields.lookup "chapters" with
        | none =>
          rw [jget, hcl, Option.getD_none] at hchap
          exact absurd hchap.symm (by simp)
        | some cj =>
          rw [jget, hcl, Option.getD_some] at hchap
          rw [hchap]
      · simp at hb
    · simp at hb

/-- C6, amended: every record produced by `validate_candidate` has a
non-empty chapters map in which at least one entry (not necessarily every
entry, as the counterexample shows) has at least one non-blank string
group. -/
theorem c6_chapters_one_valid (tbl : List Finder.CacheRow) (now : Nat)
    (raw_url source_type : String) (sha : Option String)
    (fetched : Option Json) (r : Finder.Record)
    (h : (Finder.validate_candidate tbl now raw_url source_type sha fetched).1
      = some r) :
    ∃ chapters, r.chapters = Json.obj chapters ∧ chapters ≠ [] ∧
      chapters.any (fun ch => Finder.isValidChapter ch.2) = true := by
  cases fetched with
  | none => simp [Finder.validate_candidate] at h
  | some data =>
    rw [validate_candidate_some_eq] at h
    by_cases htr : data.truthy
    · rw [if_neg (show ¬((!data.truthy) = true) by simp [htr])] at h
      cases hb : (Finder.strict_validate_cubari data).1 with
      | false => simp [hb] at h
      | true =>
        rw [if_neg (show ¬((!(Finder.strict_validate_cubari data).1) = true)
          by simp [hb])] at h
        have hbr : Finder.build_record raw_url source_type now data = some r := h
        rcases strict_validate_chapters data hb with
          ⟨fields, chapters, hdata, hcl, hne, hany⟩
        subst hdata
        rw [build_record_obj_eq] at hbr
        cases hcov : jget fields "cover" (Json.str "") with
        | str cover =>
          rw [hcov] at hbr
          have hrr := Option.some.inj hbr
          refine ⟨chapters, ?_, hne, hany⟩
          rw [← hrr]
          simp [Finder.mk_record, jget, hcl]
        | null => rw [hcov] at hbr; exact absurd hbr (by simp)
        | bool b => rw [hcov] at hbr; exact absurd hbr (by simp)
        | num n => rw [hcov] at hbr; exact absurd hbr (by simp)
        | arr elems => rw [hcov] at hbr; exact absurd hbr (by simp)
        | obj fields2 => rw [hcov] at hbr; exact absurd hbr (by simp)
    · simp [htr] at h

/-- Witness for `c6_chapters_one_valid` on a concrete valid payload. -/
theorem c6_chapters_one_valid_witness :
    ∃ chapters,
      (Finder.mk_record "u" "deep_scan" 0
        [("title", Json.str "t"),
         ("chapters", Json.obj [("1", Json.obj
           [("groups", Json.obj [("g", Json.str "http://x")])])])]
        "").chapters = Json.obj chapters ∧ chapters ≠ [] ∧
      chapters.any (fun ch => Finder.isValidChapter ch.2) = true :=
  c6_chapters_one_valid [] 0 "u" "deep_scan" (some "s1")
    (some (Json.obj [("title", Json.str "t"),
      ("chapters", Json.obj
        [("1", Json.obj [("groups", Json.obj [("g", Json.str "http://x")])])])]))
    _ (by rfl)

/-- The safe-branch collection loop of `finder.py` `search_size_range`
only appends candidates whose sha is not cached. -/
theorem search_fold_uncached (cached : String → Bool) (items : List Item)
    (acc : List (String × String × String)) :
    ∀ c ∈ items.foldl (fun acc item =>
        if cached item.sha then acc
        else acc ++ [(to_raw_url item.html_url, "search_shard", item.sha)]) acc,
      c ∈ acc ∨ cached c.2.2 = false := by
  induction items generalizing acc with
  | nil => intro c hc; exact Or.inl hc
  | cons item rest ih =>
    intro c hc
    simp only [List.foldl_cons] at hc
    rcases ih _ c hc with hmem | hunc
    · by_cases hcache : cached item.sha
      · rw [if_pos hcache] at hmem
        exact Or.inl hmem
      · rw [if_neg hcache] at hmem
        rcases List.mem_append.mp hmem with hmem1 | hmem1
        · exact Or.inl hmem1
        · rw [List.mem_singleton] at hmem1
          subst hmem1
          exact Or.inr (by simpa using hcache)
    · exact Or.inr hunc

/-- Every candidate emitted by `finder.py` `search_size_range` (beyond the
initial accumulator) has an uncached sha. -/
theorem search_size_range_rec_uncached (cached : String → Bool)
    (apiMatches : Nat → Nat → List Item) :
    ∀ fuel min_size max_size collected c,
      c ∈ Finder.search_size_range_rec cached apiMatches fuel
            min_size max_size collected →
      c ∈ collected ∨ cached c.2.2 = false := by
  intro fuel
  induction fuel with
  | zero =>
    intro min_size max_size collected c hc
    exact Or.inl hc
  | succ n ih =>
    intro min_size max_size collected c hc
    simp only [Finder.search_size_range_rec] at hc
    split at hc
    · exact Or.inl hc
    · split at hc
      · exact search_fold_uncached cached _ collected c hc
      · split at hc
        · exact Or.inl hc
        · rcases ih _ _ _ c hc with hmem | hunc
          · rcases ih _ _ _ c hmem with hmem2 | hunc2
            · exact Or.inl hmem2
            · exact Or.inr hunc2
          · exact Or.inr hunc

/-- Every candidate emitted by `deep_scan_repo` has an uncached sha. -/
theorem deep_scan_fold_uncached (cached : String → Bool) (owner repo : String)
    (tree : List Finder.TreeItem)
    (acc : List (String × String × String))
    (hacc : ∀ c ∈ acc, cached c.2.2 = false) :
    ∀ c ∈ tree.foldl (fun found item =>
        if pyEndsWith item.path ".json" && item.type == "blob" then
          match item.sha with
          | some sha =>
            if sha != "" && !cached sha then
              found ++ [("https://raw.githubusercontent.com/" ++ owner ++ "/" ++
                         repo ++ "/HEAD/" ++ item.path, "deep_scan", sha)]
            else found
          | none => found
        else found) acc,
      cached c.2.2 = false := by
  induction tree generalizing acc with
  | nil => exact hacc
  | cons item rest ih =>
    simp only [List.foldl_cons]
    apply ih
    intro c hc
    split at hc
    · split at hc
      · next sha2 =>
        split at hc
        · next hcond =>
          rcases List.mem_append.mp hc with hmem | hmem
          · exact hacc c hmem
          · rw [List.mem_singleton] at hmem
            subst hmem
            simp only [Bool.and_eq_true, Bool.not_eq_true'] at hcond
            exact hcond.2
        · exact hacc c hc
      · exact hacc c hc
    · exact hacc c hc

/-- C4: every candidate the pipeline submits for validation has a digest
that `is_sha_cached` reported uncached at collection time — both for
search candidates (`search_size_range` filters on the cache before
appending) and for deep-scan candidates (`deep_scan_repo` does the same).
Since `run` validates exactly these two candidate lists, a candidate whose
digest is already present in the dedup cache is skipped: it is neither
fetched nor re-validated, and no new validation attempt is made for it. -/
theorem c4_cached_digests_skipped (tbl1 tbl2 : List Finder.CacheRow)
    (apiMatches : Nat → Nat → List Item) (min_size max_size : Nat)
    (owner repo : String) (tree : List Finder.TreeItem) :
    (∀ c ∈ Finder.search_size_range (Finder.is_sha_cached tbl1) apiMatches
        min_size max_size [],
      Finder.is_sha_cached tbl1 c.2.2 = false) ∧
    (∀ c ∈ Finder.deep_scan_repo (Finder.is_sha_cached tbl2) owner repo tree,
      Finder.is_sha_cached tbl2 c.2.2 = false) := by
  constructor
  · intro c hc
    rcases search_size_range_rec_uncached (Finder.is_sha_cached tbl1) apiMatches
      _ _ _ _ c hc with hmem | hunc
    · simp at hmem
    · exact hunc
  · intro c hc
    exact deep_scan_fold_uncached (Finder.is_sha_cached tbl2) owner repo tree []
      (by intro c hc; simp at hc) c hc

/-- Witness for `c4_cached_digests_skipped` on a one-item stub API and a
one-blob tree against the empty cache. -/
theorem c4_cached_digests_skipped_witness :
    Finder.is_sha_cached [] "a" = false ∧ Finder.is_sha_cached [] "b" = false :=
  have hS : Finder.search_size_range (Finder.is_sha_cached [])
      (fun _ _ => [⟨"a", "u0"⟩]) 0 0 []
      = [(to_raw_url "u0", "search_shard", "a")] := rfl
  have hD : Finder.deep_scan_repo (Finder.is_sha_cached []) "o" "r"
      [⟨"f.json", "blob", some "b"⟩]
      = [("https://raw.githubusercontent.com/o/r/HEAD/f.json",
          "deep_scan", "b")] := rfl
  ⟨(c4_cached_digests_skipped [] [] (fun _ _ => [⟨"a", "u0"⟩]) 0 0 "o" "r"
      [⟨"f.json", "blob", some "b"⟩]).1 (to_raw_url "u0", "search_shard", "a")
      (hS ▸ List.mem_singleton_self _),
   (c4_cached_digests_skipped [] [] (fun _ _ => [⟨"a", "u0"⟩]) 0 0 "o" "r"
      [⟨"f.json", "blob", some "b"⟩]).2
     ("https://raw.githubusercontent.com/o/r/HEAD/f.json", "deep_scan", "b")
     (hD ▸ List.mem_singleton_self _)⟩

/-- C9: for every interval with `min_size ≤ max_size` and every
assignment of total counts, the bisection recursion terminates with call
depth at most `⌈log₂ (max_size - min_size + 1)⌉` (the dense-leaf check
cuts every deeper branch), and whenever a split happens
(`max_size - min_size ≥ 2`) both recursive calls strictly shrink the
interval width. -/
theorem c9_partition_depth_le (count : Nat → Nat → Nat)
    (min_size max_size : Nat) (h : min_size ≤ max_size) :
    CubariFinder.partitionDepth count min_size max_size
      ≤ Nat.clog 2 (max_size - min_size + 1) ∧
    (min_size + 2 ≤ max_size →
      splitMid min_size max_size - min_size < max_size - min_size ∧
      max_size - (splitMid min_size max_size + 1) < max_size - min_size) := by
  constructor
  · generalize hd : max_size - min_size = d
    induction d using Nat.strong_induction_on generalizing min_size max_size with
    | _ d ih =>
    rw [CubariFinder.partitionDepth.eq_def]
    simp only []
    split
    · exact Nat.zero_le _
    split
    · exact Nat.zero_le _
    split
    · exact Nat.zero_le _
    next hwide =>
      have hd2 : 2 ≤ d := by omega
      have hmid : splitMid min_size max_size - min_size < d ∧
          max_size - (splitMid min_size max_size + 1) < d ∧
          splitMid min_size max_size - min_size + 1 = (d + 2) / 2 ∧
          max_size - (splitMid min_size max_size + 1) + 1 ≤ (d + 2) / 2 ∧
          min_size ≤ splitMid min_size max_size ∧
          splitMid min_size max_size + 1 ≤ max_size := by
        simp only [splitMid]
        omega
      have hl := ih _ hmid.1 min_size (splitMid min_size max_size)
        hmid.2.2.2.2.1 rfl
      have hr := ih _ hmid.2.1 (splitMid min_size max_size + 1) max_size
        hmid.2.2.2.2.2 rfl
      have hstep : Nat.clog 2 (d + 1)
          = Nat.clog 2 ((d + 2) / 2) + 1 := by
        have harg : (d + 1 + 2 - 1) / 2 = (d + 2) / 2 := by omega
        rw [Nat.clog_of_two_le one_lt_two (by omega), harg]
      rw [hstep, Nat.add_comm (Nat.clog 2 ((d + 2) / 2)) 1]
      refine Nat.add_le_add_left (max_le ?_ ?_) 1
      · exact hl.trans (by rw [hmid.2.2.1])
      · exact hr.trans (Nat.clog_mono_right 2 hmid.2.2.2.1)
  · intro h2
    simp only [splitMid]
    omega

/-- Witness for `c9_partition_depth_le` on `[0, 10]` with every count
above the cap. -/
theorem c9_partition_depth_le_witness :
    CubariFinder.partitionDepth (fun _ _ => 2000) 0 10
      ≤ Nat.clog 2 (10 - 0 + 1) ∧
    (0 + 2 ≤ 10 →
      splitMid 0 10 - 0 < 10 - 0 ∧ 10 - (splitMid 0 10 + 1) < 10 - 0) :=
  c9_partition_depth_le (fun _ _ => 2000) 0 10 (by decide)

/-- Processing a batch of items none of whose shas has been seen adds
every sha to the seen set and appends one candidate per item. -/
theorem addItems_all_new (src : String) :
    ∀ (items : List Item) (seen : List String) (acc : List (String × String)),
      (items.map Item.sha).Nodup →
      (∀ s ∈ items.map Item.sha, s ∉ seen) →
      CubariFinder.addItems src (seen, acc) items
        = ((items.map Item.sha).reverse ++ seen,
           acc ++ items.map (fun it => (to_raw_url it.html_url, src))) := by
  intro items
  induction items with
  | nil =>
    intro seen acc _ _
    simp [CubariFinder.addItems]
  | cons it rest ih =>
    intro seen acc hnd hdis
    simp only [List.map_cons, List.nodup_cons] at hnd
    have hmem : it.sha ∉ seen := hdis it.sha (by simp)
    have hstep : CubariFinder.addItems src (seen, acc) (it :: rest)
        = CubariFinder.addItems src
            (it.sha :: seen, acc ++ [(to_raw_url it.html_url, src)]) rest := by
      unfold CubariFinder.addItems
      simp [List.foldl_cons, hmem]
    have hdis2 : ∀ s ∈ rest.map Item.sha, s ∉ it.sha :: seen := by
      intro s hs
      rw [List.mem_cons]
      rintro (h1 | h1)
      · exact hnd.1 (h1 ▸ hs)
      · exact hdis s (by simp [hs]) h1
    rw [hstep, ih _ _ hnd.2 hdis2]
    simp

/-- The safe-branch paging loop, started at `page`, collects exactly the
matches from position `(page-1)*100` on, provided they fit in the
remaining page budget `(11 - page) * 100` and their shas are fresh. -/
theorem safePages_collects (L : List Item) (src : String) :
    ∀ n page seen acc, 11 - page = n → 1 ≤ page →
      (L.drop ((page - 1) * 100)).length ≤ (11 - page) * 100 →
      ((L.drop ((page - 1) * 100)).map Item.sha).Nodup →
      (∀ s ∈ (L.drop ((page - 1) * 100)).map Item.sha, s ∉ seen) →
      CubariFinder.safePages L src page (seen, acc)
        = (((L.drop ((page - 1) * 100)).map Item.sha).reverse ++ seen,
           acc ++ (L.drop ((page - 1) * 100)).map
             (fun it => (to_raw_url it.html_url, src))) := by
  intro n
  induction n using Nat.strong_induction_on with
  | _ n ih =>
  intro page seen acc hn h1 hlen hnd hdis
  rw [CubariFinder.safePages.eq_def]
  simp only []
  have hpg : CubariFinder.pageItems L page
      = (L.drop ((page - 1) * 100)).take 100 := rfl
  rw [hpg]
  by_cases hR : L.drop ((page - 1) * 100) = []
  · rw [hR]
    simp
  · have htake_ne : (L.drop ((page - 1) * 100)).take 100 ≠ [] := by
      cases hc : L.drop ((page - 1) * 100) with
      | nil => exact absurd hc hR
      | cons a t => simp [hc]
    rw [if_neg (by simpa using htake_ne)]
    have hitems_nd : (((L.drop ((page - 1) * 100)).take 100).map Item.sha).Nodup :=
      hnd.sublist ((List.take_sublist _ _).map Item.sha)
    have hitems_dis : ∀ s ∈ ((L.drop ((page - 1) * 100)).take 100).map Item.sha,
        s ∉ seen := by
      intro s hs
      exact hdis s (((List.take_sublist _ _).map Item.sha).subset hs)
    rw [addItems_all_new src _ seen acc hitems_nd hitems_dis]
    have hlentake := List.length_take 100 (L.drop ((page - 1) * 100))
    by_cases hshort : ((L.drop ((page - 1) * 100)).take 100).length < 100
    · rw [if_pos hshort]
      rw [List.take_of_length_le (by omega)]
    · rw [if_neg hshort]
      by_cases hlast : 10 < page + 1
      · rw [if_pos hlast]
        rw [List.take_of_length_le (by omega)]
      · rw [if_neg hlast]
        have hdropstep : L.drop ((page + 1 - 1) * 100)
            = (L.drop ((page - 1) * 100)).drop 100 := by
          rw [List.drop_drop]
          congr 1
          omega
        have hsplit : L.drop ((page - 1) * 100)
            = (L.drop ((page - 1) * 100)).take 100
              ++ (L.drop ((page - 1) * 100)).drop 100 :=
          (List.take_append_drop 100 _).symm
        have hnd2 : (((L.drop ((page - 1) * 100)).drop 100).map Item.sha).Nodup :=
          hnd.sublist ((List.drop_sublist _ _).map Item.sha)
        have hdisj : ∀ s ∈ ((L.drop ((page - 1) * 100)).drop 100).map Item.sha,
            s ∉ ((L.drop ((page - 1) * 100)).take 100).map Item.sha := by
          have hnd3 := hnd
          rw [hsplit, List.map_append, List.nodup_append] at hnd3
          intro s hs hs2
          exact hnd3.2.2 hs2 hs
        have hlen2 : (L.drop ((page + 1 - 1) * 100)).length
            ≤ (11 - (page + 1)) * 100 := by
          rw [hdropstep, List.length_drop]
          omega
        have hnd4 : ((L.drop ((page + 1 - 1) * 100)).map Item.sha).Nodup := by
          rw [hdropstep]
          exact hnd2
        have hdis2 : ∀ s ∈ (L.drop ((page + 1 - 1) * 100)).map Item.sha,
            s ∉ (((L.drop ((page - 1) * 100)).take 100).map Item.sha).reverse
              ++ seen := by
          rw [hdropstep]
          intro s hs hmem
          rcases List.mem_append.mp hmem with h2 | h2
          · exact hdisj s hs (List.mem_reverse.mp h2)
          · exact hdis s (((List.drop_sublist _ _).map Item.sha).subset hs) h2
        have hrec := ih (11 - (page + 1)) (by omega) (page + 1)
          ((((L.drop ((page - 1) * 100)).take 100).map Item.sha).reverse ++ seen)
          (acc ++ ((L.drop ((page - 1) * 100)).take 100).map
            (fun it => (to_raw_url it.html_url, src)))
          rfl (by omega) hlen2 hnd4 hdis2
        rw [hrec, hdropstep]
        conv_rhs => rw [hsplit]
        simp only [List.map_append, List.reverse_append, List.append_assoc]

/-- The dense-leaf paging loop, started at `page`, collects exactly the
first `(11 - page) * 100` of the matches from position `(page-1)*100` on
(its only stop conditions are an empty page and the 10-page bound). -/
theorem densePages_collects (L : List Item) (src : String) :
    ∀ n page seen acc, 11 - page = n → 1 ≤ page →
      (((L.drop ((page - 1) * 100)).take ((11 - page) * 100)).map Item.sha).Nodup →
      (∀ s ∈ ((L.drop ((page - 1) * 100)).take ((11 - page) * 100)).map Item.sha,
        s ∉ seen) →
      CubariFinder.densePages L src page (seen, acc)
        = ((((L.drop ((page - 1) * 100)).take ((11 - page) * 100)).map
              Item.sha).reverse ++ seen,
           acc ++ ((L.drop ((page - 1) * 100)).take ((11 - page) * 100)).map
             (fun it => (to_raw_url it.html_url, src))) := by
  intro n
  induction n using Nat.strong_induction_on with
  | _ n ih =>
  intro page seen acc hn h1 hnd hdis
  rw [CubariFinder.densePages.eq_def]
  simp only []
  by_cases hstop : 10 < page
  · rw [if_pos hstop]
    have hz : 11 - page = 0 := by omega
    rw [hz]
    simp
  · rw [if_neg hstop]
    have hpg : CubariFinder.pageItems L page
        = (L.drop ((page - 1) * 100)).take 100 := rfl
    rw [hpg]
    by_cases hR : L.drop ((page - 1) * 100) = []
    · rw [hR]
      simp
    · have htake_ne : (L.drop ((page - 1) * 100)).take 100 ≠ [] := by
        cases hc : L.drop ((page - 1) * 100) with
        | nil => exact absurd hc hR
        | cons a t => simp [hc]
      rw [if_neg (by simpa using htake_ne)]
      have hP100 : ((L.drop ((page - 1) * 100)).take ((11 - page) * 100)).take 100
          = (L.drop ((page - 1) * 100)).take 100 := by
        rw [List.take_take]
        congr 1
        omega
      have hitems_nd : (((L.drop ((page - 1) * 100)).take 100).map Item.sha).Nodup := by
        rw [← hP100]
        exact hnd.sublist ((List.take_sublist _ _).map Item.sha)
      have hitems_dis : ∀ s ∈ ((L.drop ((page - 1) * 100)).take 100).map Item.sha,
          s ∉ seen := by
        intro s hs
        rw [← hP100] at hs
        exact hdis s (((List.take_sublist _ _).map Item.sha).subset hs)
      rw [addItems_all_new src _ seen acc hitems_nd hitems_dis]
      have hPdrop : ((L.drop ((page - 1) * 100)).take ((11 - page) * 100)).drop 100
          = (L.drop ((page + 1 - 1) * 100)).take ((11 - (page + 1)) * 100) := by
        rw [List.drop_take, List.drop_drop]
        congr 1
        · omega
        · congr 1
          omega
      have hsplitP : (L.drop ((page - 1) * 100)).take ((11 - page) * 100)
          = (L.drop ((page - 1) * 100)).take 100
            ++ (L.drop ((page + 1 - 1) * 100)).take ((11 - (page + 1)) * 100) := by
        rw [← hP100, ← hPdrop, List.take_append_drop]
      have hnd2 : (((L.drop ((page + 1 - 1) * 100)).take
          ((11 - (page + 1)) * 100)).map Item.sha).Nodup := by
        rw [← hPdrop]
        exact hnd.sublist ((List.drop_sublist _ _).map Item.sha)
      have hdisj : ∀ s ∈ ((L.drop ((page + 1 - 1) * 100)).take
            ((11 - (page + 1)) * 100)).map Item.sha,
          s ∉ ((L.drop ((page - 1) * 100)).take 100).map Item.sha := by
        have hnd3 := hnd
        rw [hsplitP, List.map_append, List.nodup_append] at hnd3
        intro s hs hs2
        exact hnd3.2.2 hs2 hs
      have hdis2 : ∀ s ∈ ((L.drop ((page + 1 - 1) * 100)).take
            ((11 - (page + 1)) * 100)).map Item.sha,
          s ∉ (((L.drop ((page - 1) * 100)).take 100).map Item.sha).reverse
            ++ seen := by
        intro s hs hmem
        rcases List.mem_append.mp hmem with h2 | h2
        · exact hdisj s hs (List.mem_reverse.mp h2)
        · refine hdis s ?_ h2
          rw [hsplitP, List.map_append]
          exact List.mem_append_right _ hs
      have hrec := ih (11 - (page + 1)) (by omega) (page + 1)
        ((((L.drop ((page - 1) * 100)).take 100).map Item.sha).reverse ++ seen)
        (acc ++ ((L.drop ((page - 1) * 100)).take 100).map
          (fun it => (to_raw_url it.html_url, src)))
        rfl (by omega) hnd2 hdis2
      rw [hrec]
      conv_rhs => rw [hsplitP]
      simp only [List.map_append, List.reverse_append, List.append_assoc]

/-- The safe branch of `finder.py` `search_size_range` (any positive
fuel): a single page-1 query, collecting uncached items of the first 100
matches only. -/
theorem finder_safe_branch (cached : String → Bool)
    (apiMatches : Nat → Nat → List Item) (min_size max_size fuel : Nat)
    (collected : List (String × String × String))
    (h0 : (apiMatches min_size max_size).length ≠ 0)
    (h1000 : (apiMatches min_size max_size).length ≤ 1000) :
    Finder.search_size_range_rec cached apiMatches (fuel + 1)
        min_size max_size collected
      = ((apiMatches min_size max_size).take 100).foldl (fun acc item =>
          if cached item.sha then acc
          else acc ++ [(to_raw_url item.html_url, "search_shard", item.sha)])
          collected := by
  rw [Finder.search_size_range_rec]
  simp only []
  rw [if_neg h0, if_pos h1000]

/-- The collection fold of the finder safe branch appends one candidate
per item when nothing is cached. -/
theorem finder_fold_uncached (items : List Item)
    (collected : List (String × String × String)) :
    items.foldl (fun acc item =>
        if (fun _ => false : String → Bool) item.sha then acc
        else acc ++ [(to_raw_url item.html_url, "search_shard", item.sha)])
        collected
      = collected ++ items.map
          (fun it => (to_raw_url it.html_url, "search_shard", it.sha)) := by
  induction items generalizing collected with
  | nil => simp
  | cons it rest ih =>
    simp only [List.foldl_cons]
    rw [ih]
    simp

/-- C1 fails as stated on `finder.py`: for a safe interval reporting
`totalCount = 101 ≤ 1000`, its `search_size_range` issues no `page`
parameter, consumes only the first 100-item page, and emits 100
candidates, not 101 — one matching item is missing. -/
theorem c1_counterexample :
    (stubApi101 0 10).length = 101 ∧ (101 : Nat) ≤ 1000 ∧
    (Finder.search_size_range (fun _ => false) stubApi101 0 10 []).length
      = 100 := by
  have h101 : (stubApi101 0 10).length = 101 := by simp [stubApi101]
  refine ⟨h101, by norm_num, ?_⟩
  have heq : Finder.search_size_range (fun _ => false) stubApi101 0 10 []
      = Finder.search_size_range_rec (fun _ => false) stubApi101 (10 + 1)
          0 10 [] := rfl
  rw [heq, finder_safe_branch (fun _ => false) stubApi101 0 10 10 []
    (by rw [h101]; norm_num) (by rw [h101]; norm_num)]
  rw [finder_fold_uncached]
  simp [stubApi101]

/-- C1, amended: the paginating partitioner of `cubari_finder.py` is
exact on a safe interval — when the interval's match list has
`totalCount ≤ 1000` items with fresh distinct shas, `search_size_range`
pages through it (100 per page, within the 10-page bound) and emits
exactly one candidate per matching item, `totalCount` in all: none
missing and none duplicated.  (`finder.py`'s variant fetches only the
first page and emits `min(totalCount, 100)` candidates — see the
counterexample.) -/
theorem c1_safe_interval_exact (apiMatches : Nat → Nat → List Item)
    (min_size max_size : Nat) (seen : List String)
    (acc : List (String × String))
    (hlen : (apiMatches min_size max_size).length ≤ 1000)
    (hnd : ((apiMatches min_size max_size).map Item.sha).Nodup)
    (hdis : ∀ s ∈ (apiMatches min_size max_size).map Item.sha, s ∉ seen) :
    CubariFinder.search_size_range apiMatches min_size max_size (seen, acc)
      = (((apiMatches min_size max_size).map Item.sha).reverse ++ seen,
         acc ++ (apiMatches min_size max_size).map
           (fun it => (to_raw_url it.html_url, "adaptive_size_shard"))) ∧
    (CubariFinder.search_size_range apiMatches min_size max_size
        (seen, acc)).2.length
      = acc.length + (apiMatches min_size max_size).length := by
  have hmain : CubariFinder.search_size_range apiMatches min_size max_size
      (seen, acc)
      = (((apiMatches min_size max_size).map Item.sha).reverse ++ seen,
         acc ++ (apiMatches min_size max_size).map
           (fun it => (to_raw_url it.html_url, "adaptive_size_shard"))) := by
    rw [CubariFinder.search_size_range.eq_def]
    simp only []
    by_cases h0 : (apiMatches min_size max_size).length = 0
    · rw [if_pos h0]
      have hnil : apiMatches min_size max_size = [] := List.length_eq_zero.mp h0
      rw [hnil]
      simp
    · rw [if_neg h0, if_pos hlen]
      have hres := safePages_collects (apiMatches min_size max_size)
        "adaptive_size_shard" 10 1 seen acc rfl (by omega)
        (by simpa using hlen) (by simpa using hnd) (by simpa using hdis)
      simpa using hres
  refine ⟨hmain, ?_⟩
  rw [hmain]
  simp

/-- Witness for `c1_safe_interval_exact` on a one-item stub API. -/
theorem c1_safe_interval_exact_witness :
    CubariFinder.search_size_range (fun _ _ => [⟨"a", "u"⟩]) 0 0 ([], [])
      = ((([(⟨"a", "u"⟩ : Item)].map Item.sha).reverse ++ [],
         [] ++ [(⟨"a", "u"⟩ : Item)].map
           (fun it => (to_raw_url it.html_url, "adaptive_size_shard"))) :
          List String × List (String × String)) ∧
    (CubariFinder.search_size_range (fun _ _ => [⟨"a", "u"⟩]) 0 0
        ([], [])).2.length = List.length ([] : List (String × String)) + 1 :=
  c1_safe_interval_exact (fun _ _ => [⟨"a", "u"⟩]) 0 0 [] []
    (by norm_num) (by simp) (by simp)

/-- The dense-leaf return of `finder.py` `search_size_range`: when the
count exceeds the cap and the interval cannot be split
(`mid == min_size`), it returns without fetching anything. -/
theorem finder_dense_return (cached : String → Bool)
    (apiMatches : Nat → Nat → List Item) (min_size max_size fuel : Nat)
    (collected : List (String × String × String))
    (h1000 : 1000 < (apiMatches min_size max_size).length)
    (hmid : splitMid min_size max_size = min_size) :
    Finder.search_size_range_rec cached apiMatches (fuel + 1)
        min_size max_size collected = collected := by
  rw [Finder.search_size_range_rec]
  simp only []
  rw [if_neg (by omega), if_neg (by omega), if_pos hmid]

/-- C2 fails as stated on `finder.py`: at a dense leaf (`totalCount =
1001 > 1000`, `high - low ≤ 1`) its `search_size_range` returns without
emitting anything — it does not greedily page the first CAP results, it
silently drops the whole interval. -/
theorem c2_counterexample :
    (stubApi1001 5 6).length = 1001 ∧ (1000 : Nat) < 1001 ∧ 6 - 5 ≤ 1 ∧
    Finder.search_size_range (fun _ => false) stubApi1001 5 6 [] = [] := by
  have h1001 : (stubApi1001 5 6).length = 1001 := by simp [stubApi1001]
  refine ⟨h1001, by norm_num, by norm_num, ?_⟩
  have heq : Finder.search_size_range (fun _ => false) stubApi1001 5 6 []
      = Finder.search_size_range_rec (fun _ => false) stubApi1001 (1 + 1)
          5 6 [] := rfl
  rw [heq, finder_dense_return (fun _ => false) stubApi1001 5 6 1 []
    (by rw [h1001]; norm_num) (by simp [splitMid])]

/-- C2, amended: at a dense leaf (`totalCount > 1000` and
`max_size - min_size ≤ 1`), `cubari_finder.py`'s partitioner does not
fail and does not return empty: it greedily pages the first 1000 results
(10 pages of 100) and emits one candidate per fetched item, accepting the
truncation.  (`finder.py`'s variant instead returns nothing at a dense
leaf — see the counterexample.) -/
theorem c2_dense_leaf_first_cap (apiMatches : Nat → Nat → List Item)
    (min_size max_size : Nat) (seen : List String)
    (acc : List (String × String))
    (htot : 1000 < (apiMatches min_size max_size).length)
    (hwide : max_size - min_size ≤ 1)
    (hnd : (((apiMatches min_size max_size).take 1000).map Item.sha).Nodup)
    (hdis : ∀ s ∈ ((apiMatches min_size max_size).take 1000).map Item.sha,
      s ∉ seen) :
    CubariFinder.search_size_range apiMatches min_size max_size (seen, acc)
      = ((((apiMatches min_size max_size).take 1000).map Item.sha).reverse
           ++ seen,
         acc ++ ((apiMatches min_size max_size).take 1000).map
           (fun it => (to_raw_url it.html_url, "dense_leaf"))) ∧
    (CubariFinder.search_size_range apiMatches min_size max_size
        (seen, acc)).2.length = acc.length + 1000 := by
  have hmain : CubariFinder.search_size_range apiMatches min_size max_size
      (seen, acc)
      = ((((apiMatches min_size max_size).take 1000).map Item.sha).reverse
           ++ seen,
         acc ++ ((apiMatches min_size max_size).take 1000).map
           (fun it => (to_raw_url it.html_url, "dense_leaf"))) := by
    rw [CubariFinder.search_size_range.eq_def]
    simp only []
    rw [if_neg (by omega), if_neg (by omega), if_pos hwide]
    have hres := densePages_collects (apiMatches min_size max_size)
      "dense_leaf" 10 1 seen acc rfl (by omega)
      (by simpa using hnd) (by simpa using hdis)
    simpa using hres
  refine ⟨hmain, ?_⟩
  rw [hmain]
  simp
  omega

/-- The first 1000 stub shas are distinct. -/
theorem stubApi1001_take_nodup :
    (((stubApi1001 5 6).take 1000).map Item.sha).Nodup := by
  have hinj : Function.Injective
      (fun i : Nat => String.mk (List.replicate i 'a')) := by
    intro a b hab
    have h2 : List.replicate a 'a' = List.replicate b 'a' :=
      congrArg String.data hab
    have h3 := congrArg List.length h2
    simpa using h3
  show ((((List.range 1001).map _).take 1000).map Item.sha).Nodup
  rw [← List.map_take, List.take_range, List.map_map]
  exact List.Nodup.map hinj (List.nodup_range 1000)

/-- Witness for `c2_dense_leaf_first_cap` on the 1001-item stub API. -/
theorem c2_dense_leaf_first_cap_witness :
    CubariFinder.search_size_range stubApi1001 5 6 ([], [])
      = ((((stubApi1001 5 6).take 1000).map Item.sha).reverse ++ [],
         [] ++ ((stubApi1001 5 6).take 1000).map
           (fun it => (to_raw_url it.html_url, "dense_leaf"))) ∧
    (CubariFinder.search_size_range stubApi1001 5 6 ([], [])).2.length
      = List.length ([] : List (String × String)) + 1000 :=
  c2_dense_leaf_first_cap stubApi1001 5 6 [] []
    (by simp [stubApi1001]) (by norm_num) stubApi1001_take_nodup
    (by intro s hs hmem; simp at hmem)

/-- C3 fails as stated: `cubari_finder.py`'s `github_search` receives a
403 rate-limit response with `remaining = "0"` and `reset = 100` twice in
a row — so the original request AND the single permitted retry both fail —
yet instead of returning a failure value it sleeps a second time
(`max(reset - now, 5) = 50` seconds each) and issues a third request,
whose 200 response it returns.  The loop retries indefinitely. -/
theorem c3_counterexample :
    CubariFinder.github_search
        (fun k => if k ≤ 1 then ⟨403, some "0", some 100, Json.null⟩
                  else ⟨200, none, none, Json.str "ok"⟩)
        (fun _ => 50) 10 0 []
      = (some (Json.str "ok"), 3, [50, 50]) := by
  rfl

/-- `github_search` keeps retrying through any number `m` of consecutive
403-with-`remaining=0`-and-reset responses, sleeping
`max(reset - now, 5)` each time, and returns the payload of the first 200
response having issued `m + 1` requests in total. -/
theorem github_search_retries (resp : Nat → CubariFinder.SearchResp)
    (clock : Nat → Nat) (p : Json) :
    ∀ m fuel attempt sleeps,
      (∀ j, j < m → (resp (attempt + j)).status = 403 ∧
        (resp (attempt + j)).remaining = some "0" ∧
        (resp (attempt + j)).reset.isSome = true) →
      (resp (attempt + m)).status = 200 →
      (resp (attempt + m)).payload = p →
      m < fuel →
      CubariFinder.github_search resp clock fuel attempt sleeps
        = (some p, attempt + m + 1,
           sleeps.reverse ++ (List.range m).map (fun j =>
             max ((resp (attempt + j)).reset.getD 0 - clock (attempt + j)) 5)) := by
  intro m
  induction m with
  | zero =>
    intro fuel attempt sleeps hseq h200 hp hfuel
    cases fuel with
    | zero => omega
    | succ f =>
      rw [Nat.add_zero] at h200 hp
      rw [CubariFinder.github_search]
      rw [if_pos h200]
      simp [hp]
  | succ m ih =>
    intro fuel attempt sleeps hseq h200 hp hfuel
    cases fuel with
    | zero => omega
    | succ f =>
      have h0 := hseq 0 (by omega)
      rw [Nat.add_zero] at h0
      rw [CubariFinder.github_search]
      rw [if_neg (by rw [h0.1]; omega), if_pos (by rw [h0.1])]
      rw [if_pos (by simp [h0.2.1, h0.2.2])]
      have hrec := ih f (attempt + 1)
        (max ((resp attempt).reset.getD 0 - clock attempt) 5 :: sleeps)
        (by
          intro j hj
          have := hseq (j + 1) (by omega)
          constructor
          · rw [show attempt + 1 + j = attempt + (j + 1) by omega]
            exact this.1
          constructor
          · rw [show attempt + 1 + j = attempt + (j + 1) by omega]
            exact this.2.1
          · rw [show attempt + 1 + j = attempt + (j + 1) by omega]
            exact this.2.2)
        (by rw [show attempt + 1 + m = attempt + (m + 1) by omega]; exact h200)
        (by rw [show attempt + 1 + m = attempt + (m + 1) by omega]; exact hp)
        (by omega)
      rw [hrec]
      refine congrArg (fun z => (some p, z)) ?_
      refine congrArg₂ (fun a b => (a, b)) (by omega) ?_
      rw [List.range_succ_eq_map, List.map_cons, List.reverse_cons,
        List.append_assoc, List.map_map]
      simp only [List.singleton_append, Nat.add_zero]
      refine congrArg₂ (fun a b => a ++ max ((resp attempt).reset.getD 0
        - clock attempt) 5 :: b) rfl ?_
      apply List.map_congr_left
      intro j _
      simp only [Function.comp]
      rw [show attempt + (j + 1) = attempt + 1 + j by omega]

/-- C3, amended: the two clients behave differently, and neither matches
the claim in full.  `cubari_finder.py`'s `github_search`, on a 403 with
`remaining=0` and reset `T`, sleeps `max(T - now, 5)` seconds and retries
— indefinitely, not once — until a non-403 status arrives (any `m`
consecutive rate-limit responses are followed by an `(m+1)`-th request);
`finder.py`'s `github_api_get`, on 403/429, rotates the token (sleeping a
fixed 60 s only when the pool has a single token; it never reads the
reset timestamp) and retries exactly once, returning `None` to the caller
if the retry is not a 200. -/
theorem c3_rate_limit_clients (resp : Nat → CubariFinder.SearchResp)
    (clock : Nat → Nat) (p : Json) (m fuel : Nat)
    (numTokens : Nat) (r1 r2 : Finder.HttpResp)
    (hseq : ∀ j, j < m → (resp j).status = 403 ∧
      (resp j).remaining = some "0" ∧ (resp j).reset.isSome = true)
    (h200 : (resp m).status = 200) (hp : (resp m).payload = p)
    (hfuel : m < fuel)
    (h1 : r1.status = 403 ∨ r1.status = 429) (h2 : r2.status ≠ 200) :
    CubariFinder.github_search resp clock fuel 0 []
      = (some p, m + 1,
         (List.range m).map (fun j =>
           max ((resp j).reset.getD 0 - clock j) 5)) ∧
    Finder.github_api_get numTokens r1 r2
      = (none, 2, if numTokens = 1 then [60] else []) := by
  constructor
  · have := github_search_retries resp clock p m fuel 0 []
      (by simpa using hseq) (by simpa using h200) (by simpa using hp) hfuel
    simpa using this
  · unfold Finder.github_api_get
    rw [if_neg (by rcases h1 with h | h <;> omega), if_pos h1, if_neg h2]

/-- Witness for `c3_rate_limit_clients`: two rate-limit responses, then a
200; the finder client gives up after one retry. -/
theorem c3_rate_limit_clients_witness :
    CubariFinder.github_search
        (fun k => if k ≤ 1 then ⟨403, some "0", some 100, Json.null⟩
                  else ⟨200, none, none, Json.str "ok"⟩)
        (fun _ => 50) 10 0 []
      = (some (Json.str "ok"), 2 + 1,
         (List.range 2).map (fun j =>
           max (((fun k : Nat => if k ≤ 1 then
               (⟨403, some "0", some 100, Json.null⟩ :
                 CubariFinder.SearchResp)
             else ⟨200, none, none, Json.str "ok"⟩) j).reset.getD 0
             - (fun _ : Nat => 50) j) 5)) ∧
    Finder.github_api_get 1 ⟨403, Json.null⟩ ⟨500, Json.null⟩
      = (none, 2, if (1 : Nat) = 1 then [60] else []) :=
  c3_rate_limit_clients
    (fun k => if k ≤ 1 then ⟨403, some "0", some 100, Json.null⟩
              else ⟨200, none, none, Json.str "ok"⟩)
    (fun _ => 50) (Json.str "ok") 2 10 1 ⟨403, Json.null⟩ ⟨500, Json.null⟩
    (by decide) (by decide) (by rfl) (by decide)
    (Or.inl rfl) (by decide)

/-- C10 fails as stated: for the URL
`https://github.com/a/b/blob/c/d/e` — owner `"a"`, repo `"b"`, branch
`"c/d"`, path `"e"`, none of which contains `"github.com"` or `"/blob/"` —
the round trip does not recover the original components: the branch's
slash shifts the split, yielding owner `"a"`, repo `"b"`, branch `"c"`,
path `"d/e"`. -/
theorem c10_counterexample :
    extract_repo_info (to_raw_url "https://github.com/a/b/blob/c/d/e")
      = some ⟨"a", "b", "c", "d/e"⟩ ∧
    extract_repo_info (to_raw_url "https://github.com/a/b/blob/c/d/e")
      ≠ some ⟨"a", "b", "c/d", "e"⟩ ∧
    hasSub "github.com".data "c/d".data = false ∧
    hasSub "/blob/".data "c/d".data = false := by
  refine ⟨by decide, by decide, by decide, by decide⟩

/-- A list is a Boolean prefix of itself followed by anything. -/
theorem prefixOf_self_append (pat Y : List Char) :
    pat.isPrefixOf (pat ++ Y) = true := by
  induction pat with
  | nil => simp [List.isPrefixOf]
  | cons c pt ih => simp [List.isPrefixOf, ih]

/-- Characters of a Boolean prefix belong to the list. -/
theorem mem_of_prefixOf (pat l : List Char) (x : Char)
    (h : pat.isPrefixOf l = true) (hx : x ∈ pat) : x ∈ l := by
  induction pat generalizing l with
  | nil => simp at hx
  | cons c pt ih =>
    cases l with
    | nil => simp [List.isPrefixOf] at h
    | cons d rest =>
      simp only [List.isPrefixOf, Bool.and_eq_true, beq_iff_eq] at h
      rcases List.mem_cons.mp hx with h1 | h1
      · rw [List.mem_cons]
        exact Or.inl (h1.trans h.1)
      · exact List.mem_cons_of_mem d (ih rest h.2 h1)

/-- A Boolean prefix of `A ++ Z` no longer than `A` is a prefix of `A`. -/
theorem prefixOf_append_left (pat A Z : List Char)
    (h : pat.isPrefixOf (A ++ Z) = true) (hlen : pat.length ≤ A.length) :
    pat.isPrefixOf A = true := by
  induction A generalizing pat with
  | nil =>
    cases pat with
    | nil => rfl
    | cons c pt => simp at hlen
  | cons a A2 ih =>
    cases pat with
    | nil => rfl
    | cons c pt =>
      simp only [List.cons_append, List.isPrefixOf, Bool.and_eq_true] at h ⊢
      exact ⟨h.1, ih pt h.2 (by simpa using hlen)⟩

/-- A Boolean prefix of `A ++ sep :: Z` that is longer than `A` starts
with `A` and has `sep` right after it. -/
theorem prefixOf_hits_sep (sep : Char) (pat A Z : List Char)
    (h : pat.isPrefixOf (A ++ sep :: Z) = true)
    (hlen : A.length < pat.length) :
    pat.take A.length = A ∧ pat.get? A.length = some sep := by
  induction A generalizing pat with
  | nil =>
    cases pat with
    | nil => simp at hlen
    | cons c pt =>
      simp only [List.nil_append, List.isPrefixOf, Bool.and_eq_true,
        beq_iff_eq] at h
      exact ⟨rfl, by simp [h.1]⟩
  | cons a A2 ih =>
    cases pat with
    | nil => simp at hlen
    | cons c pt =>
      simp only [List.cons_append, List.isPrefixOf, Bool.and_eq_true,
        beq_iff_eq] at h
      have := ih pt h.2 (by simpa using hlen)
      refine ⟨?_, by simpa using this.2⟩
      simp only [List.length_cons, List.take_succ_cons, this.1, h.1]

/-- `"blob/"` is not a Boolean prefix of `A ++ '/' :: Z` when `A` is
slash-free and differs from `"blob"`. -/
theorem blob_prefixOf_false (A Z : List Char) (hA : '/' ∉ A)
    (hne : A ≠ "blob".data) :
    ("blob/".data.isPrefixOf (A ++ '/' :: Z)) = false := by
  by_contra hcon
  rw [Bool.not_eq_false] at hcon
  by_cases hlen : "blob/".data.length ≤ A.length
  · have hpre := prefixOf_append_left "blob/".data A ('/' :: Z) hcon hlen
    exact hA (mem_of_prefixOf "blob/".data A '/' hpre (by decide))
  · have hlt : A.length < "blob/".data.length := by omega
    have hfive : A.length < 5 := by
      have : "blob/".data.length = 5 := by decide
      omega
    have hh := prefixOf_hits_sep '/' "blob/".data A Z hcon hlt
    have hcase : A.length = 0 ∨ A.length = 1 ∨ A.length = 2 ∨
        A.length = 3 ∨ A.length = 4 := by omega
    rcases hcase with h0 | h0 | h0 | h0 | h0
    all_goals rw [h0] at hh
    · exact absurd hh.2 (by decide)
    · exact absurd hh.2 (by decide)
    · exact absurd hh.2 (by decide)
    · exact absurd hh.2 (by decide)
    · exact hne (by rw [← hh.1]; decide)

/-- A non-empty Boolean prefix occurrence is in particular a substring. -/
theorem hasSub_of_prefixOf (pat l : List Char) (hne : pat ≠ [])
    (h : pat.isPrefixOf l = true) : hasSub pat l = true := by
  cases l with
  | nil =>
    cases pat with
    | nil => exact absurd rfl hne
    | cons c pt => simp [List.isPrefixOf] at h
  | cons c rest => simp [hasSub, h]

/-- A pattern containing a character the text lacks never occurs. -/
theorem hasSub_false_of_char (pat s : List Char) (c : Char)
    (hc : c ∈ pat) (hs : c ∉ s) : hasSub pat s = false := by
  induction s with
  | nil =>
    cases pat with
    | nil => simp at hc
    | cons a pt => rfl
  | cons a rest ih =>
    have ha : c ∉ rest := fun hm => hs (List.mem_cons_of_mem a hm)
    simp only [hasSub, Bool.or_eq_false_iff]
    refine ⟨?_, ih ha⟩
    by_contra hcon
    rw [Bool.not_eq_false] at hcon
    exact hs (mem_of_prefixOf pat (a :: rest) c hcon hc)

/-- Occurrences cannot start inside a block that lacks the pattern's
first character. -/
theorem hasSub_skip (pat A W : List Char) (h : Char)
    (hh : pat.head? = some h) (hA : h ∉ A) :
    hasSub pat (A ++ W) = hasSub pat W := by
  induction A with
  | nil => rfl
  | cons a A2 ih =>
    have ha : h ∉ A2 := fun hm => hA (List.mem_cons_of_mem a hm)
    have hax : a ≠ h := fun he => hA (he ▸ List.mem_cons_self a A2)
    cases pat with
    | nil => simp at hh
    | cons c pt =>
      have hch : c = h := by simpa using hh
      simp only [List.cons_append, hasSub, List.isPrefixOf,
        show (c == a) = false by simp [hch]; exact fun he => hax he.symm,
        Bool.false_and, Bool.false_or]
      exact ih ha

/-- A slash-free pattern absent from `A` and from `B` is also absent from
`A ++ '/' :: B`. -/
theorem hasSub_seg (pat A B : List Char) (hsl : '/' ∉ pat)
    (hne : pat ≠ []) (hA : hasSub pat A = false)
    (hB : hasSub pat B = false) : hasSub pat (A ++ '/' :: B) = false := by
  induction A with
  | nil =>
    simp only [List.nil_append, hasSub, Bool.or_eq_false_iff]
    refine ⟨?_, hB⟩
    cases pat with
    | nil => exact absurd rfl hne
    | cons c pt =>
      have hc : c ≠ '/' := fun he => hsl (he ▸ List.mem_cons_self c pt)
      simp [List.isPrefixOf, hc]
  | cons a A2 ih =>
    simp only [hasSub, Bool.or_eq_false_iff] at hA
    simp only [List.cons_append, hasSub, Bool.or_eq_false_iff]
    refine ⟨?_, ih hA.2⟩
    by_contra hcon
    rw [Bool.not_eq_false] at hcon
    by_cases hlen : pat.length ≤ (a :: A2).length
    · have hpre := prefixOf_append_left pat (a :: A2) ('/' :: B) hcon hlen
      rw [hA.1] at hpre
      exact absurd hpre (by simp)
    · have hh := prefixOf_hits_sep '/' pat (a :: A2) B hcon (by omega)
      exact hsl (List.get?_mem hh.2)

/-- A head position where the pattern does not match passes through the
replacement scan. -/
theorem listReplaceF_step (pat rep : List Char) (fuel : Nat) (c : Char)
    (rest : List Char) (h : pat.isPrefixOf (c :: rest) = false) :
    listReplaceF pat rep (fuel + 1) (c :: rest)
      = c :: listReplaceF pat rep fuel rest := by
  rw [listReplaceF]
  simp [h]

/-- A block lacking the pattern's first character passes through the
replacement scan unchanged. -/
theorem listReplaceF_skip (pat rep : List Char) (h : Char)
    (hh : pat.head? = some h) :
    ∀ (A Z : List Char) (fuel : Nat), h ∉ A →
      A.length + Z.length ≤ fuel →
      listReplaceF pat rep fuel (A ++ Z)
        = A ++ listReplaceF pat rep (fuel - A.length) Z := by
  intro A
  induction A with
  | nil =>
    intro Z fuel _ _
    simp
  | cons a A2 ih =>
    intro Z fuel hA hfuel
    cases fuel with
    | zero => simp at hfuel
    | succ f =>
      have hax : a ≠ h := fun he => hA (he ▸ List.mem_cons_self a A2)
      have hpre : pat.isPrefixOf (a :: (A2 ++ Z)) = false := by
        cases pat with
        | nil => simp at hh
        | cons c pt =>
          have hch : c = h := by simpa using hh
          have hba : (c == a) = false := by
            rw [hch]
            exact beq_eq_false_iff_ne.mpr (Ne.symm hax)
          simp [List.isPrefixOf, hba]
      rw [List.cons_append, listReplaceF_step pat rep f a (A2 ++ Z) hpre]
      rw [ih Z f (fun hm => hA (List.mem_cons_of_mem a hm))
        (by simp only [List.length_cons] at hfuel; omega)]
      simp [Nat.succ_sub_succ]

/-- The replacement scan replaces a pattern occurrence sitting at the
head of the input. -/
theorem listReplaceF_consume (pat rep Y : List Char) (fuel : Nat)
    (hne : pat ≠ []) (hfuel : pat.length + Y.length ≤ fuel) :
    listReplaceF pat rep fuel (pat ++ Y)
      = rep ++ listReplaceF pat rep (fuel - 1) Y := by
  cases fuel with
  | zero =>
    cases pat with
    | nil => exact absurd rfl hne
    | cons c pt => simp at hfuel
  | succ f =>
    cases pat with
    | nil => exact absurd rfl hne
    | cons c pt =>
      rw [List.cons_append, listReplaceF]
      rw [if_pos (by
        have hps := prefixOf_self_append (c :: pt) Y
        simp only [List.cons_append] at hps
        simp [hps])]
      have hdrop : (c :: (pt ++ Y)).drop (c :: pt).length = Y := by
        have : (c :: (pt ++ Y)) = (c :: pt) ++ Y := rfl
        rw [this, List.drop_left]
      rw [hdrop]
      simp

/-- If the pattern never occurs in the input, the replacement scan is the
identity. -/
theorem listReplaceF_noOcc (pat rep : List Char) (hne : pat ≠ []) :
    ∀ (s : List Char) (fuel : Nat), hasSub pat s = false → s.length ≤ fuel →
      listReplaceF pat rep fuel s = s := by
  intro s
  induction s with
  | nil =>
    intro fuel _ _
    cases fuel <;> rfl
  | cons c rest ih =>
    intro fuel hsub hfuel
    cases fuel with
    | zero => simp at hfuel
    | succ f =>
      simp only [hasSub, Bool.or_eq_false_iff] at hsub
      rw [listReplaceF_step pat rep f c rest hsub.1]
      rw [ih f hsub.2 (by simp only [List.length_cons] at hfuel; omega)]

/-- `replace` on a string with exactly one pattern occurrence, sitting
after a block that lacks the pattern's first character. -/
theorem listReplace_single_occ (pat rep X T : List Char) (h : Char)
    (hh : pat.head? = some h) (hX : h ∉ X)
    (hT : hasSub pat T = false) :
    listReplace pat rep (X ++ pat ++ T) = X ++ (rep ++ T) := by
  have hne : pat ≠ [] := by
    cases pat with
    | nil => simp at hh
    | cons c pt => simp
  have hp1 : 1 ≤ pat.length := List.length_pos.mpr hne
  unfold listReplace
  rw [List.append_assoc, listReplaceF_skip pat rep h hh X (pat ++ T) _ hX
    (by simp [List.length_append])]
  rw [listReplaceF_consume pat rep T _ hne
    (by simp only [List.length_append]; omega)]
  rw [listReplaceF_noOcc pat rep hne T _ hT
    (by simp only [List.length_append]; omega)]

/-- A pattern whose first character differs from the list's first
character is not a Boolean prefix. -/
theorem prefixOf_false_of_head (pat l : List Char) (h1 h2 : Char)
    (hp : pat.head? = some h1) (hl : l.head? = some h2) (hne : h1 ≠ h2) :
    pat.isPrefixOf l = false := by
  cases pat with
  | nil => simp at hp
  | cons c pt =>
    cases l with
    | nil => simp [List.isPrefixOf]
    | cons d rest =>
      have hc : c = h1 := by simpa using hp
      have hd : d = h2 := by simpa using hl
      have hcd : (c == d) = false := by
        rw [hc, hd]
        exact beq_eq_false_iff_ne.mpr hne
      simp [List.isPrefixOf, hcd]

/-- The head of an append with a non-empty left part. -/
theorem head?_append_left (A W : List Char) (c : Char)
    (h : A.head? = some c) : (A ++ W).head? = some c := by
  cases A with
  | nil => simp at h
  | cons a A2 => simpa using h

/-- A single `listReplaceF` step over a non-matching head, with fuel given
as a bound rather than a successor. -/
theorem listReplaceF_step_le (pat rep : List Char) (fuel : Nat) (c : Char)
    (rest : List Char) (h : pat.isPrefixOf (c :: rest) = false)
    (hfuel : 1 ≤ fuel) :
    listReplaceF pat rep fuel (c :: rest)
      = c :: listReplaceF pat rep (fuel - 1) rest := by
  cases fuel with
  | zero => omega
  | succ f => rw [listReplaceF_step pat rep f c rest h]; rfl

/-- `s.replace("/blob/", "/")` on a well-formed raw URL with slash-free
owner, repo and branch (owner and repo different from `"blob"`, the path
free of `/blob/` and not starting with `blob/`): exactly the separator
occurrence is replaced. -/
theorem stage2_blob_replace (o r b p : List Char)
    (ho : '/' ∉ o) (hr : '/' ∉ r) (hb : '/' ∉ b)
    (hbo : o ≠ "blob".data) (hbr : r ≠ "blob".data)
    (hp4 : hasSub "/blob/".data p = false)
    (hp5 : "blob/".data.isPrefixOf p = false) :
    listReplace "/blob/".data "/".data
        ("https:".data ++ '/' :: '/' :: ("raw.githubusercontent.com".data
          ++ '/' :: (o ++ '/' :: (r ++ ("/blob/".data ++ (b ++ '/' :: p))))))
      = "https:".data ++ '/' :: '/' :: ("raw.githubusercontent.com".data
          ++ '/' :: (o ++ '/' :: (r ++ '/' :: (b ++ '/' :: p)))) := by
  have hsplitpat : "/blob/".data = '/' :: "blob/".data := by decide
  have hH6 : ("https:".data).length = 6 := by decide
  have hR25 : ("raw.githubusercontent.com".data).length = 25 := by decide
  have hblp6 : ("/blob/".data).length = 6 := by decide
  have hhead : ("/blob/".data).head? = some '/' := by decide
  have hpreB : ∀ Z : List Char,
      ("/blob/".data).isPrefixOf ('/' :: '/' :: Z) = false := by
    intro Z
    rw [hsplitpat]
    simp only [List.isPrefixOf, beq_self_eq_true, Bool.true_and]
    exact prefixOf_false_of_head "blob/".data ('/' :: Z) 'b' '/'
      (by decide) rfl (by decide)
  have hpreC : ∀ Z : List Char,
      ("/blob/".data).isPrefixOf
        ('/' :: ("raw.githubusercontent.com".data ++ Z)) = false := by
    intro Z
    rw [hsplitpat]
    simp only [List.isPrefixOf, beq_self_eq_true, Bool.true_and]
    exact prefixOf_false_of_head "blob/".data
      ("raw.githubusercontent.com".data ++ Z) 'b' 'r' (by decide)
      (head?_append_left _ Z 'r' (by decide)) (by decide)
  have hpreO : ∀ Z : List Char,
      ("/blob/".data).isPrefixOf ('/' :: (o ++ '/' :: Z)) = false := by
    intro Z
    rw [hsplitpat]
    simp only [List.isPrefixOf, beq_self_eq_true, Bool.true_and]
    exact blob_prefixOf_false o Z ho hbo
  have hreassoc : ∀ Z : List Char,
      r ++ ("/blob/".data ++ Z) = r ++ '/' :: ("blob/".data ++ Z) := by
    intro Z
    rw [hsplitpat]
    rfl
  have hpreR : ∀ Z : List Char,
      ("/blob/".data).isPrefixOf ('/' :: (r ++ ("/blob/".data ++ Z)))
        = false := by
    intro Z
    rw [hreassoc Z, hsplitpat]
    simp only [List.isPrefixOf, beq_self_eq_true, Bool.true_and]
    exact blob_prefixOf_false r ("blob/".data ++ Z) hr hbr
  have hnoOcc : hasSub "/blob/".data (b ++ '/' :: p) = false := by
    rw [hasSub_skip "/blob/".data b ('/' :: p) '/' hhead hb]
    have h1 : ("/blob/".data).isPrefixOf ('/' :: p) = false := by
      rw [hsplitpat]
      simp only [List.isPrefixOf, beq_self_eq_true, Bool.true_and]
      exact hp5
    have hstep : hasSub "/blob/".data ('/' :: p)
        = (("/blob/".data).isPrefixOf ('/' :: p)
            || hasSub "/blob/".data p) := rfl
    rw [hstep, h1, hp4]
    rfl
  unfold listReplace
  rw [listReplaceF_skip "/blob/".data "/".data '/' hhead "https:".data _ _
    (by decide)
    (by simp only [List.length_append, List.length_cons, hH6, hR25, hblp6]
        omega)]
  rw [listReplaceF_step_le _ _ _ _ _ (hpreB _)
    (by simp only [List.length_append, List.length_cons, hH6]; omega)]
  rw [listReplaceF_step_le _ _ _ _ _ (hpreC _)
    (by simp only [List.length_append, List.length_cons, hH6]; omega)]
  rw [listReplaceF_skip "/blob/".data "/".data '/' hhead
    "raw.githubusercontent.com".data _ _ (by decide)
    (by simp only [List.length_append, List.length_cons, hH6, hR25, hblp6]
        omega)]
  rw [listReplaceF_step_le _ _ _ _ _ (hpreO _)
    (by simp only [List.length_append, List.length_cons, hH6, hR25, hblp6]
        omega)]
  rw [listReplaceF_skip "/blob/".data "/".data '/' hhead o _ _ ho
    (by simp only [List.length_append, List.length_cons, hH6, hR25, hblp6]
        omega)]
  rw [listReplaceF_step_le _ _ _ _ _ (hpreR _)
    (by simp only [List.length_append, List.length_cons, hH6, hR25, hblp6]
        omega)]
  rw [listReplaceF_skip "/blob/".data "/".data '/' hhead r _ _ hr
    (by simp only [List.length_append, List.length_cons, hH6, hR25, hblp6]
        omega)]
  rw [listReplaceF_consume "/blob/".data "/".data _ _ (by decide)
    (by simp only [List.length_append, List.length_cons, hH6, hR25, hblp6]
        omega)]
  rw [listReplaceF_noOcc "/blob/".data "/".data (by decide) _ _ hnoOcc
    (by simp only [List.length_append, List.length_cons, hH6, hR25, hblp6]
        omega)]
  have hslash : "/".data = ['/'] := by decide
  simp [List.append_assoc, hslash]

/-- `pySplit` always returns at least one segment, as Python `str.split`. -/
theorem pySplit_ne_nil (sep : Char) (l : List Char) : pySplit sep l ≠ [] := by
  cases l with
  | nil => simp [pySplit]
  | cons c rest =>
    simp only [pySplit]
    split
    · simp
    · split <;> simp

/-- Splitting a list that starts with a separator-free segment followed by
the separator yields that segment first. -/
theorem pySplit_skip (A B : List Char) (hA : '/' ∉ A) :
    pySplit '/' (A ++ '/' :: B) = A :: pySplit '/' B := by
  induction A with
  | nil => simp [pySplit]
  | cons a A2 ih =>
    have ha : a ≠ '/' := fun he => hA (he ▸ List.mem_cons_self a A2)
    have hA2 : '/' ∉ A2 := fun hm => hA (List.mem_cons_of_mem a hm)
    simp only [List.cons_append, pySplit, if_neg ha]
    have ih2 : pySplit '/' (A2.append ('/' :: B)) = A2 :: pySplit '/' B :=
      ih hA2
    rw [ih2]

/-- `"/".join` is a left inverse of `split("/")`, as in Python. -/
theorem pyJoin_pySplit (l : List Char) : pyJoin '/' (pySplit '/' l) = l := by
  induction l with
  | nil => rfl
  | cons c rest ih =>
    by_cases hc : c = '/'
    · subst hc
      rcases hsp : pySplit '/' rest with _ | ⟨s, ss⟩
      · exact absurd hsp (pySplit_ne_nil '/' rest)
      · rw [hsp] at ih
        have hstep : pySplit '/' ('/' :: rest) = [] :: pySplit '/' rest := by
          simp [pySplit]
        rw [hstep, hsp]
        simp only [pyJoin]
        rw [ih]
        rfl
    · rcases hsp : pySplit '/' rest with _ | ⟨s, ss⟩
      · exact absurd hsp (pySplit_ne_nil '/' rest)
      · rw [hsp] at ih
        have hstep : pySplit '/' (c :: rest) = (c :: s) :: ss := by
          simp only [pySplit, if_neg hc]
          rw [hsp]
        rw [hstep]
        cases ss with
        | nil =>
          simp only [pyJoin] at ih ⊢
          rw [ih]
        | cons s2 ss2 =>
          simp only [pyJoin] at ih ⊢
          rw [← ih]
          simp

/-- Unfolding `pyReplace` to its character-list computation. -/
theorem pyReplace_data (s pat rep : String) :
    (pyReplace s pat rep).data = listReplace pat.data rep.data s.data := rfl

/-- Unfolding `to_raw_url` to its two character-list replacements. -/
theorem to_raw_url_data (u : String) :
    (to_raw_url u).data
      = listReplace "/blob/".data "/".data
          (listReplace "github.com".data
            "raw.githubusercontent.com".data u.data) := rfl

/-- C10 (amended): with slash-free owner, repo and branch (owner and repo
not equal to `blob`), no component containing `github.com` or a colon, and
a path free of `/blob/` and not starting with `blob/`, composing
`to_raw_url` with `extract_repo_info` recovers the original components;
and every raw URL with fewer than three path components after the host
yields `None`. -/
theorem c10_roundtrip_components (o r b p : String)
    (ho1 : '/' ∉ o.data) (hr1 : '/' ∉ r.data) (hb1 : '/' ∉ b.data)
    (ho2 : ':' ∉ o.data) (hr2 : ':' ∉ r.data) (hb2 : ':' ∉ b.data)
    (hp2 : ':' ∉ p.data)
    (hgo : hasSub "github.com".data o.data = false)
    (hgr : hasSub "github.com".data r.data = false)
    (hgb : hasSub "github.com".data b.data = false)
    (hgp : hasSub "github.com".data p.data = false)
    (hbo : o.data ≠ "blob".data) (hbr : r.data ≠ "blob".data)
    (hp4 : hasSub "/blob/".data p.data = false)
    (hp5 : ("blob/".data).isPrefixOf p.data = false) :
    extract_repo_info (to_raw_url
        ("https://github.com/" ++ o ++ "/" ++ r ++ "/blob/" ++ b ++ "/" ++ p))
      = some ⟨o, r, b, p⟩ ∧
    ∀ raw_url : String,
      (pySplit '/' (pyReplace raw_url
          "https://raw.githubusercontent.com/" "").data).length < 3 →
      extract_repo_info raw_url = none := by
  constructor
  · have hu : ("https://github.com/" ++ o ++ "/" ++ r ++ "/blob/" ++ b
          ++ "/" ++ p).data
        = "https://".data ++ "github.com".data
          ++ ('/' :: (o.data ++ '/' :: (r.data
            ++ ("/blob/".data ++ (b.data ++ '/' :: p.data))))) := by
      simp only [String.data_append]
      simp [List.append_assoc, List.cons_append]
    have hreshape : ∀ X : List Char,
        "/blob/".data ++ X = '/' :: ("blob".data ++ '/' :: X) := by
      intro X
      rw [show "/blob/".data = '/' :: "blob".data ++ ['/'] from by decide]
      simp [List.append_assoc]
    have hg1 : hasSub "github.com".data (b.data ++ '/' :: p.data) = false :=
      hasSub_seg _ b.data p.data (by decide) (by decide) hgb hgp
    have hg2 : hasSub "github.com".data
        ("blob".data ++ '/' :: (b.data ++ '/' :: p.data)) = false :=
      hasSub_seg _ _ _ (by decide) (by decide) (by decide) hg1
    have hg4 : hasSub "github.com".data
        (r.data ++ ("/blob/".data ++ (b.data ++ '/' :: p.data))) = false := by
      rw [hreshape (b.data ++ '/' :: p.data)]
      exact hasSub_seg _ r.data _ (by decide) (by decide) hgr hg2
    have hg5 : hasSub "github.com".data
        (o.data ++ '/' :: (r.data
          ++ ("/blob/".data ++ (b.data ++ '/' :: p.data)))) = false :=
      hasSub_seg _ o.data _ (by decide) (by decide) hgo hg4
    have hT1 : hasSub "github.com".data
        ('/' :: (o.data ++ '/' :: (r.data
          ++ ("/blob/".data ++ (b.data ++ '/' :: p.data))))) = false :=
      (hasSub_skip "github.com".data ['/'] _ 'g' (by decide) (by decide)).trans
        hg5
    have hbridge1 : ∀ Z : List Char,
        "https://".data ++ Z = "https:".data ++ '/' :: '/' :: Z := by
      intro Z
      rw [show "https://".data = "https:".data ++ ['/', '/'] from by decide]
      simp [List.append_assoc]
    have hstep1 : listReplace "github.com".data
          "raw.githubusercontent.com".data
          ("https://github.com/" ++ o ++ "/" ++ r ++ "/blob/" ++ b
            ++ "/" ++ p).data
        = "https:".data ++ '/' :: '/'
          :: ("raw.githubusercontent.com".data
            ++ '/' :: (o.data ++ '/' :: (r.data
              ++ ("/blob/".data ++ (b.data ++ '/' :: p.data))))) := by
      rw [hu]
      rw [listReplace_single_occ "github.com".data
        "raw.githubusercontent.com".data "https://".data _ 'g' (by decide)
        (by decide) hT1]
      rw [hbridge1]
    have hstep2 : (to_raw_url ("https://github.com/" ++ o ++ "/" ++ r
          ++ "/blob/" ++ b ++ "/" ++ p)).data
        = "https:".data ++ '/' :: '/'
          :: ("raw.githubusercontent.com".data
            ++ '/' :: (o.data ++ '/' :: (r.data
              ++ '/' :: (b.data ++ '/' :: p.data)))) := by
      rw [to_raw_url_data, hstep1]
      exact stage2_blob_replace o.data r.data b.data p.data ho1 hr1 hb1
        hbo hbr hp4 hp5
    have hcolon : ':' ∉ o.data ++ '/' :: (r.data
        ++ '/' :: (b.data ++ '/' :: p.data)) := by
      intro hm
      simp only [List.mem_append, List.mem_cons] at hm
      rcases hm with h | h | h | h | h | h | h
      · exact ho2 h
      · exact absurd h (by decide)
      · exact hr2 h
      · exact absurd h (by decide)
      · exact hb2 h
      · exact absurd h (by decide)
      · exact hp2 h
    have hT3 : hasSub "https://raw.githubusercontent.com/".data
        (o.data ++ '/' :: (r.data ++ '/' :: (b.data ++ '/' :: p.data)))
          = false :=
      hasSub_false_of_char _ _ ':' (by decide) hcolon
    have hbridge2 : ∀ Z : List Char,
        "https:".data ++ '/' :: '/'
            :: ("raw.githubusercontent.com".data ++ '/' :: Z)
          = "https://raw.githubusercontent.com/".data ++ Z := by
      intro Z
      rw [show "https://raw.githubusercontent.com/".data
            = "https:".data ++ '/' :: '/'
              :: ("raw.githubusercontent.com".data ++ ['/']) from by decide]
      simp [List.append_assoc]
    have hstep3 : (pyReplace (to_raw_url ("https://github.com/" ++ o ++ "/"
          ++ r ++ "/blob/" ++ b ++ "/" ++ p))
          "https://raw.githubusercontent.com/" "").data
        = o.data ++ '/' :: (r.data ++ '/' :: (b.data ++ '/' :: p.data)) := by
      rw [pyReplace_data, hstep2, hbridge2,
        show "".data = ([] : List Char) from rfl]
      have h4 := listReplace_single_occ
        "https://raw.githubusercontent.com/".data [] []
        (o.data ++ '/' :: (r.data ++ '/' :: (b.data ++ '/' :: p.data)))
        'h' (by decide) (by simp) hT3
      simpa using h4
    have hs1 : pySplit '/' (o.data ++ '/' :: (r.data
          ++ '/' :: (b.data ++ '/' :: p.data)))
        = o.data :: r.data :: b.data :: pySplit '/' p.data := by
      rw [pySplit_skip o.data _ ho1, pySplit_skip r.data _ hr1,
        pySplit_skip b.data _ hb1]
    simp only [extract_repo_info]
    rw [hstep3, hs1]
    have hlen : 3 ≤ (o.data :: r.data :: b.data
        :: pySplit '/' p.data).length := by
      simp only [List.length_cons]
      omega
    rw [if_pos hlen]
    simp only [List.getD_cons_zero, List.getD_cons_succ,
      List.drop_succ_cons, List.drop_zero]
    rw [pyJoin_pySplit p.data]
  · intro raw_url hlt
    simp only [extract_repo_info]
    rw [if_neg (by omega)]

/-- Witness: the round-trip theorem applied to a concrete URL with a
slash in the path. -/
theorem c10_roundtrip_components_witness :
    extract_repo_info (to_raw_url
        ("https://github.com/" ++ "own" ++ "/" ++ "rep" ++ "/blob/"
          ++ "br" ++ "/" ++ "x/y.json"))
      = some ⟨"own", "rep", "br", "x/y.json"⟩ ∧
    ∀ raw_url : String,
      (pySplit '/' (pyReplace raw_url
          "https://raw.githubusercontent.com/" "").data).length < 3 →
      extract_repo_info raw_url = none :=
  c10_roundtrip_components "own" "rep" "br" "x/y.json"
    (by decide) (by decide) (by decide) (by decide) (by decide) (by decide)
    (by decide) (by decide) (by decide) (by decide) (by decide) (by decide)
    (by decide) (by decide) (by decide)

end CubariHakken